import Mathlib

/-!
Shallow embedding of the kanata trace-log parser (src/parser/mod.rs,
src/parser/primitive.rs, src/parser/rules.rs, src/command.rs), together
with theorems settling the specification claims.

Bytes are modelled as natural numbers (the value of the `u8`), the input
buffer as a `List Nat`, the cursor as a `Nat` offset.  Machine integers
are modelled as `Nat`/`Int` with explicit reductions modulo powers of two
where the Rust code can wrap (release-mode semantics of `u64` arithmetic,
the `as u16` cast, `<<` on `u64`).  Fallible parsing steps return
`Except ParseError` paired with the updated parser state, because the
Rust methods mutate `self` even on the failure path.
-/

deriving instance DecidableEq for Except

namespace Kanata

/-- Error kinds of the parser, from src/parser/mod.rs. -/
inductive ParseErrorKind where
  | InvalidHeader
  | InvalidLogKind
  | InvalidRetireKind
  | InvalidDepKind
  | TextTooLong
  | ExpectedValue
  | ValueTooBig
  | ExpectedText
  | UnexpectedCharacter
  | UnexpectedEof
deriving DecidableEq, Repr

/-- Parse error: byte offset plus error kind, from src/parser/mod.rs. -/
structure ParseError where
  offset : Nat
  kind : ParseErrorKind
deriving DecidableEq, Repr

/-- Log kinds, from src/command.rs. -/
inductive LogKind where
  | LeftPane
  | MouseOver
  | Other
deriving DecidableEq, Repr

/-- Decoding of the log-kind digit byte, from the TryFrom impl in src/command.rs
    (48, 49, 50 are the bytes of the digits 0, 1, 2). -/
def LogKind.tryFrom (b : Nat) : Except ParseErrorKind LogKind :=
  if b = 48 then .ok .LeftPane
  else if b = 49 then .ok .MouseOver
  else if b = 50 then .ok .Other
  else .error .InvalidLogKind

/-- Retire kinds, from src/command.rs. -/
inductive RetireKind where
  | Retire
  | Flush
deriving DecidableEq, Repr

/-- Decoding of the retire-kind digit byte, from src/command.rs. -/
def RetireKind.tryFrom (b : Nat) : Except ParseErrorKind RetireKind :=
  if b = 48 then .ok .Retire
  else if b = 49 then .ok .Flush
  else .error .InvalidRetireKind

/-- Dependency kinds, from src/command.rs. -/
inductive DepKind where
  | WakeUp
deriving DecidableEq, Repr

/-- Decoding of the dependency-kind digit byte, from src/command.rs. -/
def DepKind.tryFrom (b : Nat) : Except ParseErrorKind DepKind :=
  if b = 48 then .ok .WakeUp
  else .error .InvalidDepKind

/-- Packed zero-copy text reference, from src/command.rs: a single 64-bit
    word holding the span offset and length. -/
structure StrRef where
  val : Nat
deriving DecidableEq, Repr

/-- StrRef::new packs a u64 offset and a u16 length as (offset << 16) | len.
    The shift wraps modulo 2^64 and the length argument is a u16, hence the
    reduction modulo 2^16 at this boundary. -/
def StrRef.new (offset len : Nat) : StrRef :=
  ⟨(offset <<< 16) % 2 ^ 64 ||| len % 2 ^ 16⟩

/-- StrRef::offset recovers the span offset as the high 48 bits. -/
def StrRef.offset (s : StrRef) : Nat := s.val >>> 16

/-- StrRef::len recovers the span length as the low 16 bits (the `as u16` cast). -/
def StrRef.len (s : StrRef) : Nat := s.val % 2 ^ 16

/-- Parsed record, from src/command.rs.  The u32 fields are Nats whose range
    is enforced by parse_u32; the i32 cycle value is an Int. -/
inductive Command where
  | Kanata (version : Nat)
  | Cycle (abs : Bool) (value : Int)
  | Instruction (id_in_file id_in_sim thread_id : Nat)
  | Log (id : Nat) (kind : LogKind) (text : StrRef)
  | Pipeline (start : Bool) (id lane_id : Nat) (name : StrRef)
  | Retire (id retire : Nat) (kind : RetireKind)
  | Dep (consumer_id producer_id : Nat) (kind : DepKind)
deriving DecidableEq, Repr

/-- Parser state, from src/parser/primitive.rs: the borrowed input buffer and
    the byte cursor. -/
structure Parser where
  input : List Nat
  pos : Nat
deriving DecidableEq, Repr

/-- Parser::new, from src/parser/primitive.rs. -/
def Parser.new (input : List Nat) : Parser := ⟨input, 0⟩

/-- Parser::advance, from src/parser/primitive.rs. -/
def Parser.advance (p : Parser) (n : Nat) : Parser := { p with pos := p.pos + n }

/-- Parser::get_offset, from src/parser/primitive.rs. -/
def Parser.get_offset (p : Parser) : Nat := p.pos

/-- Parser::rest, from src/parser/primitive.rs: the unconsumed tail of the buffer. -/
def Parser.rest (p : Parser) : List Nat := p.input.drop p.pos

/-- Parser::error, from src/parser/primitive.rs: stamps the error with the
    cursor offset at the point of failure. -/
def Parser.error (p : Parser) (kind : ParseErrorKind) : ParseError :=
  ⟨p.get_offset, kind⟩

/-- Parser::bump, from src/parser/primitive.rs. -/
def Parser.bump (p : Parser) : Parser := p.advance 1

/-- Parser::current, from src/parser/primitive.rs. -/
def Parser.current (p : Parser) : Option Nat := p.rest.head?

/-- Length of the leading run of space (32) or tab (9) bytes.  The while-bump
    loop of Parser::spaces in src/parser/rules.rs advances past exactly this run. -/
def spacesCount : List Nat → Nat
  | [] => 0
  | b :: bs => if b = 32 ∨ b = 9 then spacesCount bs + 1 else 0

/-- Parser::spaces, from src/parser/rules.rs. -/
def Parser.spaces (p : Parser) : Parser := p.advance (spacesCount p.rest)

/-- Parser::lineend, from src/parser/rules.rs: one byte if it is CR (13) or
    LF (10), then one further byte if it is LF. -/
def Parser.lineend (p : Parser) : Parser :=
  match p.current with
  | some b =>
    if b = 13 ∨ b = 10 then
      let q := p.bump
      match q.current with
      | some c => if c = 10 then q.bump else q
      | none => q
    else p
  | none => p

/-- Parser::expect, from src/parser/rules.rs. -/
def Parser.expect (p : Parser) (expected : Nat) : Except ParseError Unit × Parser :=
  match p.current with
  | some actual =>
    if actual = expected then (.ok (), p.bump)
    else (.error (p.error .UnexpectedCharacter), p)
  | none => (.error (p.error .UnexpectedCharacter), p)

/-- Parser::eat, from src/parser/rules.rs. -/
def Parser.eat (p : Parser) (expected : Nat) : Bool × Parser :=
  match p.current with
  | some actual => if actual = expected then (true, p.bump) else (false, p)
  | none => (false, p)

/-- Parser::tab, from src/parser/rules.rs. -/
def Parser.tab (p : Parser) : Except ParseError Unit × Parser := p.expect 9

/-- Test for an ASCII digit byte, as u8::is_ascii_digit. -/
def isDigit (b : Nat) : Bool := decide (48 ≤ b ∧ b ≤ 57)

/-- Parser::single_digit, from src/parser/rules.rs: consumes exactly one ASCII
    digit byte and returns it. -/
def Parser.single_digit (p : Parser) : Except ParseError Nat × Parser :=
  match p.current with
  | some actual =>
    if isDigit actual then (.ok actual, p.bump)
    else (.error (p.error .ExpectedValue), p)
  | none => (.error (p.error .ExpectedValue), p)

/-- Scan loop of Parser::parse_u64 in src/parser/rules.rs: walk the leading
    ASCII digit run, accumulating v = v * 10 + digit in a u64 (wrapping modulo
    2^64, the release-mode semantics of the Rust arithmetic); returns the final
    accumulator and the number of digits consumed. -/
def accumDigits (v : Nat) : List Nat → Nat × Nat
  | [] => (v, 0)
  | b :: bs =>
    if isDigit b then
      let r := accumDigits ((v * 10 + (b - 48)) % 2 ^ 64) bs
      (r.1, r.2 + 1)
    else (v, 0)

/-- Parser::parse_u64, from src/parser/rules.rs. -/
def Parser.parse_u64 (p : Parser) : Except ParseError Nat × Parser :=
  let r := accumDigits 0 p.rest
  if r.2 > 0 then (.ok r.1, p.advance r.2)
  else (.error (p.error .ExpectedValue), p)

/-- Parser::parse_i32, from src/parser/rules.rs: optional sign (45 is the
    minus byte, 43 the plus byte), then parse_u64, narrowed through
    i32::try_from (which accepts exactly the values up to 2^31 - 1), then the
    sign is applied. -/
def Parser.parse_i32 (p : Parser) : Except ParseError Int × Parser :=
  match p.current with
  | some c =>
    match (if c = 45 ∨ c = 43 then p.bump else p).parse_u64 with
    | (.ok v, q) =>
      if v ≤ 2 ^ 31 - 1 then
        (.ok (if c = 45 then -(v : Int) else (v : Int)), q)
      else (.error (q.error .ValueTooBig), q)
    | (.error e, q) => (.error e, q)
  | none => (.error (p.error .UnexpectedEof), p)

/-- Parser::parse_u32, from src/parser/rules.rs: parse_u64 narrowed through
    u32::try_from. -/
def Parser.parse_u32 (p : Parser) : Except ParseError Nat × Parser :=
  match p.parse_u64 with
  | (.ok v, q) =>
    if v ≤ 2 ^ 32 - 1 then (.ok v, q) else (.error (q.error .ValueTooBig), q)
  | (.error e, q) => (.error e, q)

/-- Index of the first byte equal to a or b, as memchr::memchr2 computes it. -/
def memchr2 (a b : Nat) : List Nat → Option Nat
  | [] => none
  | c :: cs => if c = a ∨ c = b then some 0 else (memchr2 a b cs).map (· + 1)

/-- Parser::text, from src/parser/rules.rs: the free-text span runs to the
    first CR or LF (exclusive) or to end of buffer; a zero-length span is
    ExpectedText; the StrRef is built from the span start and length. -/
def Parser.text (p : Parser) : Except ParseError StrRef × Parser :=
  let start := p.get_offset
  let len :=
    match memchr2 13 10 p.rest with
    | some i => i
    | none => p.rest.length
  if len = 0 then (.error (p.error .ExpectedText), p)
  else (.ok (StrRef.new start len), p.advance len)

/-- Byte literal b"Kanata\t" checked by parse_header. -/
def kanataLit : List Nat := [75, 97, 110, 97, 116, 97, 9]

/-- Parser::parse_header, from src/parser/rules.rs.  Note: on a mismatching
    literal it fails before consuming anything. -/
def Parser.parse_header (p : Parser) : Except ParseError Command × Parser :=
  if p.rest.take 7 = kanataLit then
    let q := p.advance 7
    match q.parse_u32 with
    | (.ok version, q) => (.ok (.Kanata version), q.spaces.lineend)
    | (.error e, q) => (.error e, q)
  else (.error (p.error .InvalidHeader), p)

/-- Parser::parse_c, from src/parser/rules.rs. -/
def Parser.parse_c (p : Parser) : Except ParseError Command × Parser :=
  let p := p.bump
  let e := p.eat 61
  match e.2.tab with
  | (.ok _, q) =>
    match q.parse_i32 with
    | (.ok value, q) => (.ok (.Cycle e.1 value), q.spaces.lineend)
    | (.error err, q) => (.error err, q)
  | (.error err, q) => (.error err, q)

/-- Parser::parse_i, from src/parser/rules.rs. -/
def Parser.parse_i (p : Parser) : Except ParseError Command × Parser :=
  let p := p.bump
  match p.tab with
  | (.ok _, q) =>
    match q.parse_u32 with
    | (.ok id_file, q) =>
      match q.tab with
      | (.ok _, q) =>
        match q.parse_u32 with
        | (.ok id_sim, q) =>
          match q.tab with
          | (.ok _, q) =>
            match q.parse_u32 with
            | (.ok thread, q) =>
              (.ok (.Instruction id_file id_sim thread), q.spaces.lineend)
            | (.error err, q) => (.error err, q)
          | (.error err, q) => (.error err, q)
        | (.error err, q) => (.error err, q)
      | (.error err, q) => (.error err, q)
    | (.error err, q) => (.error err, q)
  | (.error err, q) => (.error err, q)

/-- Parser::parse_l, from src/parser/rules.rs.  The kind digit is consumed by
    single_digit before LogKind::try_from validates it, so an InvalidLogKind
    error is stamped at the offset after the digit. -/
def Parser.parse_l (p : Parser) : Except ParseError Command × Parser :=
  let p := p.bump
  match p.tab with
  | (.ok _, q) =>
    match q.parse_u32 with
    | (.ok id, q) =>
      match q.tab with
      | (.ok _, q) =>
        match q.single_digit with
        | (.ok d, q) =>
          match LogKind.tryFrom d with
          | .ok kind =>
            match q.tab with
            | (.ok _, q) =>
              match q.text with
              | (.ok text, q) => (.ok (.Log id kind text), q.lineend)
              | (.error err, q) => (.error err, q)
            | (.error err, q) => (.error err, q)
          | .error k => (.error (q.error k), q)
        | (.error err, q) => (.error err, q)
      | (.error err, q) => (.error err, q)
    | (.error err, q) => (.error err, q)
  | (.error err, q) => (.error err, q)

/-- Parser::parse_pipeline, from src/parser/rules.rs (tags S and E). -/
def Parser.parse_pipeline (p : Parser) (start : Bool) :
    Except ParseError Command × Parser :=
  let p := p.bump
  match p.tab with
  | (.ok _, q) =>
    match q.parse_u32 with
    | (.ok id, q) =>
      match q.tab with
      | (.ok _, q) =>
        match q.parse_u32 with
        | (.ok lane, q) =>
          match q.tab with
          | (.ok _, q) =>
            match q.text with
            | (.ok name, q) => (.ok (.Pipeline start id lane name), q.lineend)
            | (.error err, q) => (.error err, q)
          | (.error err, q) => (.error err, q)
        | (.error err, q) => (.error err, q)
      | (.error err, q) => (.error err, q)
    | (.error err, q) => (.error err, q)
  | (.error err, q) => (.error err, q)

/-- Parser::parse_r, from src/parser/rules.rs. -/
def Parser.parse_r (p : Parser) : Except ParseError Command × Parser :=
  let p := p.bump
  match p.tab with
  | (.ok _, q) =>
    match q.parse_u32 with
    | (.ok id, q) =>
      match q.tab with
      | (.ok _, q) =>
        match q.parse_u32 with
        | (.ok retire, q) =>
          match q.tab with
          | (.ok _, q) =>
            match q.single_digit with
            | (.ok d, q) =>
              match RetireKind.tryFrom d with
              | .ok kind => (.ok (.Retire id retire kind), q.spaces.lineend)
              | .error k => (.error (q.error k), q)
            | (.error err, q) => (.error err, q)
          | (.error err, q) => (.error err, q)
        | (.error err, q) => (.error err, q)
      | (.error err, q) => (.error err, q)
    | (.error err, q) => (.error err, q)
  | (.error err, q) => (.error err, q)

/-- Parser::parse_w, from src/parser/rules.rs. -/
def Parser.parse_w (p : Parser) : Except ParseError Command × Parser :=
  let p := p.bump
  match p.tab with
  | (.ok _, q) =>
    match q.parse_u32 with
    | (.ok c, q) =>
      match q.tab with
      | (.ok _, q) =>
        match q.parse_u32 with
        | (.ok pr, q) =>
          match q.tab with
          | (.ok _, q) =>
            match q.single_digit with
            | (.ok d, q) =>
              match DepKind.tryFrom d with
              | .ok kind => (.ok (.Dep c pr kind), q.spaces.lineend)
              | .error k => (.error (q.error k), q)
            | (.error err, q) => (.error err, q)
          | (.error err, q) => (.error err, q)
        | (.error err, q) => (.error err, q)
      | (.error err, q) => (.error err, q)
    | (.error err, q) => (.error err, q)
  | (.error err, q) => (.error err, q)

/-- Iterator::next for Parser, from src/parser/mod.rs: dispatch on the leading
    tag byte (75 K, 67 C, 73 I, 76 L, 83 S, 69 E, 82 R, 87 W); yields the
    record-start offset with the outcome, or nothing at end of buffer. -/
def Parser.next (p : Parser) : Option ((Nat × Except ParseError Command) × Parser) :=
  let offset := p.get_offset
  match p.current with
  | some b =>
    let r :=
      if b = 75 then p.parse_header
      else if b = 67 then p.parse_c
      else if b = 73 then p.parse_i
      else if b = 76 then p.parse_l
      else if b = 83 then p.parse_pipeline true
      else if b = 69 then p.parse_pipeline false
      else if b = 82 then p.parse_r
      else if b = 87 then p.parse_w
      else (.error (p.error .UnexpectedCharacter), p)
    some ((offset, r.1), r.2)
  | none => none

/-- First n items the iterator yields (fewer when it reports end of input). -/
def Parser.pulls (p : Parser) : Nat → List (Nat × Except ParseError Command)
  | 0 => []
  | n + 1 =>
    match p.next with
    | some (item, q) => item :: q.pulls n
    | none => []

/-- Decimal value of a digit string: the number literally written in the input. -/
def decVal (ds : List Nat) : Nat := ds.foldl (fun a b => a * 10 + (b - 48)) 0

/-- Number of bytes lineend consumes, as a function of the unconsumed tail:
    one byte if it is CR or LF, a second one if it is LF. -/
def lineendCount : List Nat → Nat
  | [] => 0
  | b :: bs =>
    if b = 13 ∨ b = 10 then
      match bs with
      | c :: _ => if c = 10 then 2 else 1
      | [] => 1
    else 0

/-- Byte list of the record "L\x0910\x09X\x09hello\x0a", whose kind field is
    the non-digit byte X (88) at offset 5. -/
def lRecX : List Nat := [76, 9, 49, 48, 9, 88, 9, 104, 101, 108, 108, 111, 10]

section Lemmas

/-- Disjoint bitwise-or is addition: or-ing low bits below 2^k into a multiple
    of 2^k adds them. -/
theorem mul_pow_lor_eq_add (k : Nat) : ∀ a b : Nat, b < 2 ^ k →
    (a * 2 ^ k) ||| b = a * 2 ^ k + b := by
  induction k with
  | zero =>
    intro a b hb
    have : b = 0 := by omega
    simp [this]
  | succ k ih =>
    intro a b hb
    have hb2 : b / 2 < 2 ^ k := by
      have h2 : (2 : Nat) ^ (k + 1) = 2 ^ k * 2 := by ring
      omega
    have h1 : a * 2 ^ (k + 1) = Nat.bit false (a * 2 ^ k) := by
      simp [Nat.bit_val]; ring
    have h2 : b = Nat.bit (decide (b % 2 = 1)) (b >>> 1) := by
      rw [Nat.bit_decide_mod_two_eq_one_shiftRight_one]
    calc (a * 2 ^ (k + 1)) ||| b
        = Nat.bit false (a * 2 ^ k) ||| Nat.bit (decide (b % 2 = 1)) (b >>> 1) := by
          rw [← h1, ← h2]
      _ = Nat.bit (false || decide (b % 2 = 1)) ((a * 2 ^ k) ||| (b >>> 1)) :=
          Nat.lor_bit false (a * 2 ^ k) (decide (b % 2 = 1)) (b >>> 1)
      _ = a * 2 ^ (k + 1) + b := by
          rw [Nat.shiftRight_one, ih a (b / 2) hb2, Nat.bit_val]
          have := Nat.div_add_mod b 2
          rcases Nat.mod_two_eq_zero_or_one b with hm | hm <;> simp [hm] <;> ring_nf <;> omega

/-- Packed word of a StrRef built from an in-range offset and length. -/
theorem strRef_new_val (o l : Nat) (ho : o < 2 ^ 48) (hl : l < 2 ^ 16) :
    (StrRef.new o l).val = o * 2 ^ 16 + l := by
  unfold StrRef.new
  rw [Nat.shiftLeft_eq]
  have h1 : o * 2 ^ 16 < 2 ^ 64 := by
    calc o * 2 ^ 16 < 2 ^ 48 * 2 ^ 16 := by
          exact Nat.mul_lt_mul_of_pos_right ho (by norm_num)
      _ = 2 ^ 64 := by norm_num
  rw [Nat.mod_eq_of_lt h1, Nat.mod_eq_of_lt hl]
  exact mul_pow_lor_eq_add 16 o l hl

/-- Accessors of a StrRef built from an in-range offset and length. -/
theorem strRef_accessors (o l : Nat) (ho : o < 2 ^ 48) (hl : l < 2 ^ 16) :
    (StrRef.new o l).offset = o ∧ (StrRef.new o l).len = l := by
  have h := strRef_new_val o l ho hl
  constructor
  · unfold StrRef.offset
    rw [h, Nat.shiftRight_eq_div_pow, Nat.mul_comm, Nat.mul_add_div (by norm_num)]
    have h0 : l / 2 ^ 16 = 0 := Nat.div_eq_of_lt hl
    norm_num at h0 ⊢
    omega
  · unfold StrRef.len
    rw [h, Nat.mul_comm, Nat.mul_add_mod]
    exact Nat.mod_eq_of_lt hl

/-- Bumping shifts the unconsumed tail by one byte. -/
theorem rest_bump (p : Parser) : p.bump.rest = p.rest.tail := by
  simp [Parser.bump, Parser.advance, Parser.rest, ← List.tail_drop]

/-- Advancing twice adds the two step sizes. -/
theorem advance_advance (p : Parser) (m n : Nat) :
    (p.advance m).advance n = p.advance (m + n) := by
  simp [Parser.advance, Nat.add_assoc]

/-- Advancing by zero is the identity. -/
theorem advance_zero (p : Parser) : p.advance 0 = p := by
  cases p; simp [Parser.advance]

/-- Length of the unconsumed tail. -/
theorem rest_length (p : Parser) : p.rest.length = p.input.length - p.pos := by
  simp [Parser.rest]

/-- A byte is available exactly when the cursor is strictly inside the buffer. -/
theorem current_some_lt (p : Parser) (b : Nat) (h : p.current = some b) :
    p.pos < p.input.length := by
  by_contra hge
  push_neg at hge
  have h0 : p.rest.length = 0 := by rw [rest_length]; omega
  have : p.rest = [] := List.length_eq_zero.mp h0
  rw [Parser.current, this] at h
  simp at h

/-- The leading space-tab run is no longer than the list. -/
theorem spacesCount_le : ∀ l : List Nat, spacesCount l ≤ l.length := by
  intro l
  induction l with
  | nil => simp [spacesCount]
  | cons b bs ih =>
    simp only [spacesCount, List.length_cons]
    split <;> omega

/-- The digit run consumed by the parse_u64 scan is no longer than the list. -/
theorem accumDigits_count_le : ∀ (l : List Nat) (v : Nat),
    (accumDigits v l).2 ≤ l.length := by
  intro l
  induction l with
  | nil => intro v; simp [accumDigits]
  | cons b bs ih =>
    intro v
    simp only [accumDigits, List.length_cons]
    split
    · have := ih ((v * 10 + (b - 48)) % 2 ^ 64)
      simpa using Nat.add_le_add_right this 1
    · omega

/-- A found byte index lies inside the list. -/
theorem memchr2_le (a b : Nat) : ∀ (l : List Nat) (i : Nat),
    memchr2 a b l = some i → i ≤ l.length := by
  intro l
  induction l with
  | nil => intro i h; simp [memchr2] at h
  | cons c cs ih =>
    intro i h
    simp only [memchr2] at h
    split at h
    · simp at h; omega
    · cases hr : memchr2 a b cs with
      | none => rw [hr] at h; simp at h
      | some j =>
        rw [hr] at h
        simp at h
        have := ih j hr
        simp [List.length_cons]
        omega

/-- The count lineend consumes is at most the tail length. -/
theorem lineendCount_le : ∀ l : List Nat, lineendCount l ≤ l.length := by
  intro l
  match l with
  | [] => simp [lineendCount]
  | [b] => simp [lineendCount]; split <;> simp
  | b :: c :: t => simp [lineendCount]; split <;> [split <;> omega; omega]

/-- What lineend does, as a function of the unconsumed tail. -/
theorem lineend_shape (p : Parser) :
    Parser.lineend p = p.advance (lineendCount p.rest) := by
  unfold Parser.lineend lineendCount
  have hcur : p.current = p.rest.head? := rfl
  match h : p.rest with
  | [] =>
    rw [hcur, h]
    simp [advance_zero]
  | b :: bs =>
    rw [hcur, h]
    simp only [List.head?_cons]
    by_cases hb : b = 13 ∨ b = 10
    · simp only [hb, if_true]
      have hq : p.bump.current = bs.head? := by
        rw [show p.bump.current = p.bump.rest.head? from rfl, rest_bump, h]
        rfl
      match bs with
      | [] =>
        rw [hq]
        simp [Parser.bump]
      | c :: t =>
        rw [hq]
        simp only [List.head?_cons]
        by_cases hc : c = 10
        · simp [hc, Parser.bump, advance_advance]
        · simp [hc, Parser.bump]
    · simp [hb, advance_zero]

/-- Advancing preserves the buffer. -/
theorem advance_input (p : Parser) (n : Nat) : (p.advance n).input = p.input := rfl

/-- Advancing adds to the cursor. -/
theorem advance_pos (p : Parser) (n : Nat) : (p.advance n).pos = p.pos + n := rfl

/-- Bumping preserves the buffer. -/
theorem bump_input (p : Parser) : p.bump.input = p.input := rfl

/-- Bumping moves the cursor one byte. -/
theorem bump_pos (p : Parser) : p.bump.pos = p.pos + 1 := rfl

/-- Progress p q: q is p after consuming bytes of the same buffer, staying in
    bounds whenever p was in bounds. -/
def Progress (p q : Parser) : Prop :=
  q.input = p.input ∧ p.pos ≤ q.pos ∧
    (p.pos ≤ p.input.length → q.pos ≤ p.input.length)

theorem progress_refl (p : Parser) : Progress p p := ⟨rfl, le_refl _, fun h => h⟩

theorem progress_trans {p q r : Parser} (h1 : Progress p q) (h2 : Progress q r) :
    Progress p r := by
  obtain ⟨a1, a2, a3⟩ := h1
  obtain ⟨b1, b2, b3⟩ := h2
  refine ⟨by rw [b1, a1], le_trans a2 b2, fun h => ?_⟩
  have hb := b3 (by rw [a1]; exact a3 h)
  rw [a1] at hb
  exact hb

theorem progress_bump_lt (p : Parser) (h : p.pos < p.input.length) :
    Progress p p.bump :=
  ⟨rfl, by rw [bump_pos]; omega, fun _ => by rw [bump_pos]; omega⟩

theorem progress_bump (p : Parser) (b : Nat) (h : p.current = some b) :
    Progress p p.bump :=
  progress_bump_lt p (current_some_lt p b h)

/-- Progress step for spaces. -/
theorem spaces_progress (p : Parser) : Progress p p.spaces := by
  unfold Parser.spaces
  have hc := spacesCount_le p.rest
  rw [rest_length] at hc
  exact ⟨rfl, by rw [advance_pos]; omega,
    fun h => by rw [advance_pos]; omega⟩

/-- Progress step for lineend. -/
theorem lineend_progress (p : Parser) : Progress p p.lineend := by
  rw [lineend_shape]
  have hc := lineendCount_le p.rest
  rw [rest_length] at hc
  exact ⟨rfl, by rw [advance_pos]; omega,
    fun h => by rw [advance_pos]; omega⟩

/-- ErrBound p r: an error in r is stamped at an offset inside the buffer,
    provided the cursor started inside the buffer. -/
def ErrBound {α : Type} (p : Parser) (r : Except ParseError α) : Prop :=
  ∀ e, r = .error e → p.pos ≤ p.input.length → e.offset ≤ p.input.length

theorem errBound_ok {α : Type} (p : Parser) (x : α) :
    ErrBound p (Except.ok x : Except ParseError α) := by
  intro e he
  exact absurd he (by simp)

theorem errBound_at {α : Type} (p : Parser) (k : ParseErrorKind) :
    ErrBound p (Except.error (p.error k) : Except ParseError α) := by
  intro e he hp
  have h : p.error k = e := by injection he
  rw [← h]
  exact hp

theorem errBound_lift {α : Type} {p q : Parser} (hpq : Progress p q)
    {r : Except ParseError α} (h : ErrBound q r) : ErrBound p r := by
  intro e he hp
  have hq : q.pos ≤ q.input.length := by rw [hpq.1]; exact hpq.2.2 hp
  have hb := h e he hq
  rw [hpq.1] at hb
  exact hb

theorem errBound_propagate {α β : Type} {p : Parser} {e : ParseError}
    (h : ErrBound p (Except.error e : Except ParseError α)) :
    ErrBound p (Except.error e : Except ParseError β) := by
  intro e' he' hp
  have hee : e = e' := by injection he'
  subst hee
  exact h e rfl hp

/-- Result of expect when a byte is available. -/
theorem expect_some_eq (p : Parser) (a b : Nat) (h : p.current = some a) :
    p.expect b =
      if a = b then (.ok (), p.bump)
      else (.error (p.error .UnexpectedCharacter), p) := by
  unfold Parser.expect
  rw [h]

/-- Result of expect at end of buffer. -/
theorem expect_none_eq (p : Parser) (b : Nat) (h : p.current = none) :
    p.expect b = (.error (p.error .UnexpectedCharacter), p) := by
  unfold Parser.expect
  rw [h]

/-- Invariant step for expect. -/
theorem expect_inv (p : Parser) (b : Nat) :
    Progress p (p.expect b).2 ∧ ErrBound p (p.expect b).1 := by
  match hc : p.current with
  | some a =>
    rw [expect_some_eq p a b hc]
    by_cases hab : a = b
    · rw [if_pos hab]
      exact ⟨progress_bump p a hc, errBound_ok _ _⟩
    · rw [if_neg hab]
      exact ⟨progress_refl p, errBound_at p _⟩
  | none =>
    rw [expect_none_eq p b hc]
    exact ⟨progress_refl p, errBound_at p _⟩

/-- Invariant step for tab. -/
theorem tab_inv (p : Parser) :
    Progress p p.tab.2 ∧ ErrBound p p.tab.1 :=
  expect_inv p 9

/-- Result of eat when a byte is available. -/
theorem eat_some_eq (p : Parser) (a b : Nat) (h : p.current = some a) :
    p.eat b = if a = b then (true, p.bump) else (false, p) := by
  unfold Parser.eat
  rw [h]

/-- Result of eat at end of buffer. -/
theorem eat_none_eq (p : Parser) (b : Nat) (h : p.current = none) :
    p.eat b = (false, p) := by
  unfold Parser.eat
  rw [h]

/-- Progress step for eat. -/
theorem eat_progress (p : Parser) (b : Nat) : Progress p (p.eat b).2 := by
  match hc : p.current with
  | some a =>
    rw [eat_some_eq p a b hc]
    by_cases hab : a = b
    · rw [if_pos hab]
      exact progress_bump p a hc
    · rw [if_neg hab]
      exact progress_refl p
  | none =>
    rw [eat_none_eq p b hc]
    exact progress_refl p

/-- Result of single_digit when a byte is available. -/
theorem single_digit_some_eq (p : Parser) (a : Nat) (h : p.current = some a) :
    p.single_digit =
      if isDigit a then (.ok a, p.bump)
      else (.error (p.error .ExpectedValue), p) := by
  unfold Parser.single_digit
  rw [h]

/-- Result of single_digit at end of buffer. -/
theorem single_digit_none_eq (p : Parser) (h : p.current = none) :
    p.single_digit = (.error (p.error .ExpectedValue), p) := by
  unfold Parser.single_digit
  rw [h]

/-- Invariant step for single_digit. -/
theorem single_digit_inv (p : Parser) :
    Progress p p.single_digit.2 ∧ ErrBound p p.single_digit.1 := by
  match hc : p.current with
  | some a =>
    rw [single_digit_some_eq p a hc]
    by_cases hd : isDigit a
    · rw [if_pos hd]
      exact ⟨progress_bump p a hc, errBound_ok _ _⟩
    · rw [if_neg hd]
      exact ⟨progress_refl p, errBound_at p _⟩
  | none =>
    rw [single_digit_none_eq p hc]
    exact ⟨progress_refl p, errBound_at p _⟩

/-- Result of parse_u64 as a function of the digit-run scan. -/
theorem parse_u64_eq (p : Parser) :
    p.parse_u64 =
      if (accumDigits 0 p.rest).2 > 0 then
        (.ok (accumDigits 0 p.rest).1, p.advance (accumDigits 0 p.rest).2)
      else (.error (p.error .ExpectedValue), p) := rfl

/-- Invariant step for parse_u64. -/
theorem parse_u64_inv (p : Parser) :
    Progress p p.parse_u64.2 ∧ ErrBound p p.parse_u64.1 := by
  rw [parse_u64_eq]
  have hcnt := accumDigits_count_le p.rest 0
  rw [rest_length] at hcnt
  by_cases h : (accumDigits 0 p.rest).2 > 0
  · rw [if_pos h]
    exact ⟨⟨rfl, by rw [advance_pos]; omega,
      fun hp => by rw [advance_pos]; omega⟩, errBound_ok _ _⟩
  · rw [if_neg h]
    exact ⟨progress_refl p, errBound_at p _⟩

/-- Result of parse_u32 when the digit run succeeded. -/
theorem parse_u32_ok_eq (p q : Parser) (v : Nat) (h : p.parse_u64 = (.ok v, q)) :
    p.parse_u32 =
      if v ≤ 2 ^ 32 - 1 then (.ok v, q)
      else (.error (q.error .ValueTooBig), q) := by
  unfold Parser.parse_u32
  rw [h]

/-- Result of parse_u32 when the digit run failed. -/
theorem parse_u32_err_eq (p q : Parser) (e : ParseError)
    (h : p.parse_u64 = (.error e, q)) :
    p.parse_u32 = (.error e, q) := by
  unfold Parser.parse_u32
  rw [h]

/-- Invariant step for parse_u32. -/
theorem parse_u32_inv (p : Parser) :
    Progress p p.parse_u32.2 ∧ ErrBound p p.parse_u32.1 := by
  obtain ⟨hprog, herr⟩ := parse_u64_inv p
  rcases hu : p.parse_u64 with ⟨r, q⟩
  rw [hu] at hprog herr
  have hprogq : Progress p q := hprog
  cases r with
  | ok v =>
    rw [parse_u32_ok_eq p q v hu]
    by_cases hv : v ≤ 2 ^ 32 - 1
    · rw [if_pos hv]
      exact ⟨hprogq, errBound_ok _ _⟩
    · rw [if_neg hv]
      exact ⟨hprogq, errBound_lift hprogq (errBound_at q _)⟩
  | error e =>
    rw [parse_u32_err_eq p q e hu]
    exact ⟨hprogq, herr⟩

/-- Result of parse_i32 at end of buffer. -/
theorem parse_i32_none_eq (p : Parser) (h : p.current = none) :
    p.parse_i32 = (.error (p.error .UnexpectedEof), p) := by
  unfold Parser.parse_i32
  rw [h]

/-- Result of parse_i32 once the leading byte is known: an optional sign is
    consumed, then the digit run is parsed and narrowed. -/
theorem parse_i32_sign_eq (p : Parser) (c : Nat) (h : p.current = some c) :
    p.parse_i32 =
      (match (if c = 45 ∨ c = 43 then p.bump else p).parse_u64 with
       | (.ok v, q) =>
         if v ≤ 2 ^ 31 - 1 then
           (.ok (if c = 45 then -(v : Int) else (v : Int)), q)
         else (.error (q.error .ValueTooBig), q)
       | (.error e, q) => (.error e, q)) := by
  unfold Parser.parse_i32
  rw [h]

/-- Result of parse_i32 when the digit run succeeded. -/
theorem parse_i32_ok_eq (p p1 q : Parser) (c v : Nat) (h : p.current = some c)
    (hp1 : p1 = if c = 45 ∨ c = 43 then p.bump else p)
    (hu : p1.parse_u64 = (.ok v, q)) :
    p.parse_i32 =
      if v ≤ 2 ^ 31 - 1 then
        (.ok (if c = 45 then -(v : Int) else (v : Int)), q)
      else (.error (q.error .ValueTooBig), q) := by
  rw [parse_i32_sign_eq p c h, ← hp1, hu]

/-- Result of parse_i32 when the digit run failed. -/
theorem parse_i32_err_eq (p p1 q : Parser) (c : Nat) (e : ParseError)
    (h : p.current = some c)
    (hp1 : p1 = if c = 45 ∨ c = 43 then p.bump else p)
    (hu : p1.parse_u64 = (.error e, q)) :
    p.parse_i32 = (.error e, q) := by
  rw [parse_i32_sign_eq p c h, ← hp1, hu]

/-- Invariant step for parse_i32. -/
theorem parse_i32_inv (p : Parser) :
    Progress p p.parse_i32.2 ∧ ErrBound p p.parse_i32.1 := by
  match hc : p.current with
  | none =>
    rw [parse_i32_none_eq p hc]
    exact ⟨progress_refl p, errBound_at p _⟩
  | some c =>
    have hp1 : Progress p (if c = 45 ∨ c = 43 then p.bump else p) := by
      split
      · exact progress_bump p c hc
      · exact progress_refl p
    obtain ⟨hprog, herr⟩ := parse_u64_inv (if c = 45 ∨ c = 43 then p.bump else p)
    rcases hu : (if c = 45 ∨ c = 43 then p.bump else p).parse_u64 with ⟨r, q⟩
    rw [hu] at hprog herr
    have hprogq : Progress p q := progress_trans hp1 hprog
    cases r with
    | ok v =>
      rw [parse_i32_ok_eq p _ q c v hc rfl hu]
      by_cases hv : v ≤ 2 ^ 31 - 1
      · rw [if_pos hv]
        exact ⟨hprogq, errBound_ok _ _⟩
      · rw [if_neg hv]
        exact ⟨hprogq, errBound_lift hprogq (errBound_at q _)⟩
    | error e =>
      rw [parse_i32_err_eq p _ q c e hc rfl hu]
      exact ⟨hprogq, errBound_propagate (errBound_lift hp1 herr)⟩

/-- Result of text as a function of the scan for the first CR or LF. -/
theorem text_eq (p : Parser) :
    p.text =
      (let len :=
        match memchr2 13 10 p.rest with
        | some i => i
        | none => p.rest.length
      if len = 0 then (.error (p.error .ExpectedText), p)
      else (.ok (StrRef.new p.pos len), p.advance len)) := rfl

/-- The length text computes never exceeds the unconsumed tail. -/
theorem textLen_le (p : Parser) :
    (match memchr2 13 10 p.rest with
     | some i => i
     | none => p.rest.length) ≤ p.rest.length := by
  match hm : memchr2 13 10 p.rest with
  | some i => exact memchr2_le 13 10 p.rest i hm
  | none => exact le_refl _

/-- Invariant step for text. -/
theorem text_inv (p : Parser) :
    Progress p p.text.2 ∧ ErrBound p p.text.1 := by
  rw [text_eq]
  set len :=
    match memchr2 13 10 p.rest with
    | some i => i
    | none => p.rest.length with hlen
  have hle : len ≤ p.rest.length := by rw [hlen]; exact textLen_le p
  rw [rest_length] at hle
  by_cases h0 : len = 0
  · rw [if_pos h0]
    exact ⟨progress_refl p, errBound_at p _⟩
  · rw [if_neg h0]
    exact ⟨⟨rfl, by rw [advance_pos]; omega,
      fun hp => by rw [advance_pos]; omega⟩, errBound_ok _ _⟩
/-- Progress through the trailing spaces-then-lineend sequence. -/
theorem progress_sl (q : Parser) : Progress q q.spaces.lineend :=
  progress_trans (spaces_progress q) (lineend_progress q.spaces)

/-- Invariant step for parse_i: the rule preserves the buffer, never moves
    the cursor backwards or out of bounds, and stamps every error inside
    the buffer, given it starts on an available byte. -/
theorem parse_i_inv (p : Parser) (hp : p.pos < p.input.length) :
    Progress p (p.parse_i).2 ∧ ErrBound p (p.parse_i).1 := by
  unfold Parser.parse_i
  have hq0 : Progress p p.bump := progress_bump_lt p hp
  obtain ⟨ht1, he1⟩ := tab_inv p.bump
  rcases h1 : p.bump.tab with ⟨r1, q1⟩
  rw [h1] at ht1 he1
  have hq1 : Progress p q1 := progress_trans hq0 ht1
  cases r1 with
  | error e =>
    simp only [h1]
    exact ⟨hq1, errBound_propagate (errBound_lift hq0 he1)⟩
  | ok x1 =>
    simp only [h1]
    obtain ⟨ht2, he2⟩ := parse_u32_inv q1
    rcases h2 : q1.parse_u32 with ⟨r2, q2⟩
    rw [h2] at ht2 he2
    have hq2 : Progress p q2 := progress_trans hq1 ht2
    cases r2 with
    | error e =>
      simp only [h2]
      exact ⟨hq2, errBound_propagate (errBound_lift hq1 he2)⟩
    | ok x2 =>
      simp only [h2]
      obtain ⟨ht3, he3⟩ := tab_inv q2
      rcases h3 : q2.tab with ⟨r3, q3⟩
      rw [h3] at ht3 he3
      have hq3 : Progress p q3 := progress_trans hq2 ht3
      cases r3 with
      | error e =>
        simp only [h3]
        exact ⟨hq3, errBound_propagate (errBound_lift hq2 he3)⟩
      | ok x3 =>
        simp only [h3]
        obtain ⟨ht4, he4⟩ := parse_u32_inv q3
        rcases h4 : q3.parse_u32 with ⟨r4, q4⟩
        rw [h4] at ht4 he4
        have hq4 : Progress p q4 := progress_trans hq3 ht4
        cases r4 with
        | error e =>
          simp only [h4]
          exact ⟨hq4, errBound_propagate (errBound_lift hq3 he4)⟩
        | ok x4 =>
          simp only [h4]
          obtain ⟨ht5, he5⟩ := tab_inv q4
          rcases h5 : q4.tab with ⟨r5, q5⟩
          rw [h5] at ht5 he5
          have hq5 : Progress p q5 := progress_trans hq4 ht5
          cases r5 with
          | error e =>
            simp only [h5]
            exact ⟨hq5, errBound_propagate (errBound_lift hq4 he5)⟩
          | ok x5 =>
            simp only [h5]
            obtain ⟨ht6, he6⟩ := parse_u32_inv q5
            rcases h6 : q5.parse_u32 with ⟨r6, q6⟩
            rw [h6] at ht6 he6
            have hq6 : Progress p q6 := progress_trans hq5 ht6
            cases r6 with
            | error e =>
              simp only [h6]
              exact ⟨hq6, errBound_propagate (errBound_lift hq5 he6)⟩
            | ok x6 =>
              simp only [h6]
              exact ⟨progress_trans hq6 (progress_sl q6), errBound_ok _ _⟩

/-- Invariant step for parse_l: the rule preserves the buffer, never moves
    the cursor backwards or out of bounds, and stamps every error inside
    the buffer, given it starts on an available byte. -/
theorem parse_l_inv (p : Parser) (hp : p.pos < p.input.length) :
    Progress p (p.parse_l).2 ∧ ErrBound p (p.parse_l).1 := by
  unfold Parser.parse_l
  have hq0 : Progress p p.bump := progress_bump_lt p hp
  obtain ⟨ht1, he1⟩ := tab_inv p.bump
  rcases h1 : p.bump.tab with ⟨r1, q1⟩
  rw [h1] at ht1 he1
  have hq1 : Progress p q1 := progress_trans hq0 ht1
  cases r1 with
  | error e =>
    simp only [h1]
    exact ⟨hq1, errBound_propagate (errBound_lift hq0 he1)⟩
  | ok x1 =>
    simp only [h1]
    obtain ⟨ht2, he2⟩ := parse_u32_inv q1
    rcases h2 : q1.parse_u32 with ⟨r2, q2⟩
    rw [h2] at ht2 he2
    have hq2 : Progress p q2 := progress_trans hq1 ht2
    cases r2 with
    | error e =>
      simp only [h2]
      exact ⟨hq2, errBound_propagate (errBound_lift hq1 he2)⟩
    | ok x2 =>
      simp only [h2]
      obtain ⟨ht3, he3⟩ := tab_inv q2
      rcases h3 : q2.tab with ⟨r3, q3⟩
      rw [h3] at ht3 he3
      have hq3 : Progress p q3 := progress_trans hq2 ht3
      cases r3 with
      | error e =>
        simp only [h3]
        exact ⟨hq3, errBound_propagate (errBound_lift hq2 he3)⟩
      | ok x3 =>
        simp only [h3]
        obtain ⟨ht4, he4⟩ := single_digit_inv q3
        rcases h4 : q3.single_digit with ⟨r4, q4⟩
        rw [h4] at ht4 he4
        have hq4 : Progress p q4 := progress_trans hq3 ht4
        cases r4 with
        | error e =>
          simp only [h4]
          exact ⟨hq4, errBound_propagate (errBound_lift hq3 he4)⟩
        | ok x4 =>
          simp only [h4]
          rcases htf : LogKind.tryFrom x4 with k | kind
          · simp only [htf]
            exact ⟨hq4, errBound_lift hq4 (errBound_at q4 k)⟩
          · simp only [htf]
            obtain ⟨ht5, he5⟩ := tab_inv q4
            rcases h5 : q4.tab with ⟨r5, q5⟩
            rw [h5] at ht5 he5
            have hq5 : Progress p q5 := progress_trans hq4 ht5
            cases r5 with
            | error e =>
              simp only [h5]
              exact ⟨hq5, errBound_propagate (errBound_lift hq4 he5)⟩
            | ok x5 =>
              simp only [h5]
              obtain ⟨ht6, he6⟩ := text_inv q5
              rcases h6 : q5.text with ⟨r6, q6⟩
              rw [h6] at ht6 he6
              have hq6 : Progress p q6 := progress_trans hq5 ht6
              cases r6 with
              | error e =>
                simp only [h6]
                exact ⟨hq6, errBound_propagate (errBound_lift hq5 he6)⟩
              | ok x6 =>
                simp only [h6]
                exact ⟨progress_trans hq6 (lineend_progress q6), errBound_ok _ _⟩

/-- Invariant step for parse_pipeline: the rule preserves the buffer, never moves
    the cursor backwards or out of bounds, and stamps every error inside
    the buffer, given it starts on an available byte. -/
theorem parse_pipeline_inv (p : Parser) (s : Bool) (hp : p.pos < p.input.length) :
    Progress p (p.parse_pipeline s).2 ∧ ErrBound p (p.parse_pipeline s).1 := by
  unfold Parser.parse_pipeline
  have hq0 : Progress p p.bump := progress_bump_lt p hp
  obtain ⟨ht1, he1⟩ := tab_inv p.bump
  rcases h1 : p.bump.tab with ⟨r1, q1⟩
  rw [h1] at ht1 he1
  have hq1 : Progress p q1 := progress_trans hq0 ht1
  cases r1 with
  | error e =>
    simp only [h1]
    exact ⟨hq1, errBound_propagate (errBound_lift hq0 he1)⟩
  | ok x1 =>
    simp only [h1]
    obtain ⟨ht2, he2⟩ := parse_u32_inv q1
    rcases h2 : q1.parse_u32 with ⟨r2, q2⟩
    rw [h2] at ht2 he2
    have hq2 : Progress p q2 := progress_trans hq1 ht2
    cases r2 with
    | error e =>
      simp only [h2]
      exact ⟨hq2, errBound_propagate (errBound_lift hq1 he2)⟩
    | ok x2 =>
      simp only [h2]
      obtain ⟨ht3, he3⟩ := tab_inv q2
      rcases h3 : q2.tab with ⟨r3, q3⟩
      rw [h3] at ht3 he3
      have hq3 : Progress p q3 := progress_trans hq2 ht3
      cases r3 with
      | error e =>
        simp only [h3]
        exact ⟨hq3, errBound_propagate (errBound_lift hq2 he3)⟩
      | ok x3 =>
        simp only [h3]
        obtain ⟨ht4, he4⟩ := parse_u32_inv q3
        rcases h4 : q3.parse_u32 with ⟨r4, q4⟩
        rw [h4] at ht4 he4
        have hq4 : Progress p q4 := progress_trans hq3 ht4
        cases r4 with
        | error e =>
          simp only [h4]
          exact ⟨hq4, errBound_propagate (errBound_lift hq3 he4)⟩
        | ok x4 =>
          simp only [h4]
          obtain ⟨ht5, he5⟩ := tab_inv q4
          rcases h5 : q4.tab with ⟨r5, q5⟩
          rw [h5] at ht5 he5
          have hq5 : Progress p q5 := progress_trans hq4 ht5
          cases r5 with
          | error e =>
            simp only [h5]
            exact ⟨hq5, errBound_propagate (errBound_lift hq4 he5)⟩
          | ok x5 =>
            simp only [h5]
            obtain ⟨ht6, he6⟩ := text_inv q5
            rcases h6 : q5.text with ⟨r6, q6⟩
            rw [h6] at ht6 he6
            have hq6 : Progress p q6 := progress_trans hq5 ht6
            cases r6 with
            | error e =>
              simp only [h6]
              exact ⟨hq6, errBound_propagate (errBound_lift hq5 he6)⟩
            | ok x6 =>
              simp only [h6]
              exact ⟨progress_trans hq6 (lineend_progress q6), errBound_ok _ _⟩

/-- Invariant step for parse_r: the rule preserves the buffer, never moves
    the cursor backwards or out of bounds, and stamps every error inside
    the buffer, given it starts on an available byte. -/
theorem parse_r_inv (p : Parser) (hp : p.pos < p.input.length) :
    Progress p (p.parse_r).2 ∧ ErrBound p (p.parse_r).1 := by
  unfold Parser.parse_r
  have hq0 : Progress p p.bump := progress_bump_lt p hp
  obtain ⟨ht1, he1⟩ := tab_inv p.bump
  rcases h1 : p.bump.tab with ⟨r1, q1⟩
  rw [h1] at ht1 he1
  have hq1 : Progress p q1 := progress_trans hq0 ht1
  cases r1 with
  | error e =>
    simp only [h1]
    exact ⟨hq1, errBound_propagate (errBound_lift hq0 he1)⟩
  | ok x1 =>
    simp only [h1]
    obtain ⟨ht2, he2⟩ := parse_u32_inv q1
    rcases h2 : q1.parse_u32 with ⟨r2, q2⟩
    rw [h2] at ht2 he2
    have hq2 : Progress p q2 := progress_trans hq1 ht2
    cases r2 with
    | error e =>
      simp only [h2]
      exact ⟨hq2, errBound_propagate (errBound_lift hq1 he2)⟩
    | ok x2 =>
      simp only [h2]
      obtain ⟨ht3, he3⟩ := tab_inv q2
      rcases h3 : q2.tab with ⟨r3, q3⟩
      rw [h3] at ht3 he3
      have hq3 : Progress p q3 := progress_trans hq2 ht3
      cases r3 with
      | error e =>
        simp only [h3]
        exact ⟨hq3, errBound_propagate (errBound_lift hq2 he3)⟩
      | ok x3 =>
        simp only [h3]
        obtain ⟨ht4, he4⟩ := parse_u32_inv q3
        rcases h4 : q3.parse_u32 with ⟨r4, q4⟩
        rw [h4] at ht4 he4
        have hq4 : Progress p q4 := progress_trans hq3 ht4
        cases r4 with
        | error e =>
          simp only [h4]
          exact ⟨hq4, errBound_propagate (errBound_lift hq3 he4)⟩
        | ok x4 =>
          simp only [h4]
          obtain ⟨ht5, he5⟩ := tab_inv q4
          rcases h5 : q4.tab with ⟨r5, q5⟩
          rw [h5] at ht5 he5
          have hq5 : Progress p q5 := progress_trans hq4 ht5
          cases r5 with
          | error e =>
            simp only [h5]
            exact ⟨hq5, errBound_propagate (errBound_lift hq4 he5)⟩
          | ok x5 =>
            simp only [h5]
            obtain ⟨ht6, he6⟩ := single_digit_inv q5
            rcases h6 : q5.single_digit with ⟨r6, q6⟩
            rw [h6] at ht6 he6
            have hq6 : Progress p q6 := progress_trans hq5 ht6
            cases r6 with
            | error e =>
              simp only [h6]
              exact ⟨hq6, errBound_propagate (errBound_lift hq5 he6)⟩
            | ok x6 =>
              simp only [h6]
              rcases htf : RetireKind.tryFrom x6 with k | kind
              · simp only [htf]
                exact ⟨hq6, errBound_lift hq6 (errBound_at q6 k)⟩
              · simp only [htf]
                exact ⟨progress_trans hq6 (progress_sl q6), errBound_ok _ _⟩

/-- Invariant step for parse_w: the rule preserves the buffer, never moves
    the cursor backwards or out of bounds, and stamps every error inside
    the buffer, given it starts on an available byte. -/
theorem parse_w_inv (p : Parser) (hp : p.pos < p.input.length) :
    Progress p (p.parse_w).2 ∧ ErrBound p (p.parse_w).1 := by
  unfold Parser.parse_w
  have hq0 : Progress p p.bump := progress_bump_lt p hp
  obtain ⟨ht1, he1⟩ := tab_inv p.bump
  rcases h1 : p.bump.tab with ⟨r1, q1⟩
  rw [h1] at ht1 he1
  have hq1 : Progress p q1 := progress_trans hq0 ht1
  cases r1 with
  | error e =>
    simp only [h1]
    exact ⟨hq1, errBound_propagate (errBound_lift hq0 he1)⟩
  | ok x1 =>
    simp only [h1]
    obtain ⟨ht2, he2⟩ := parse_u32_inv q1
    rcases h2 : q1.parse_u32 with ⟨r2, q2⟩
    rw [h2] at ht2 he2
    have hq2 : Progress p q2 := progress_trans hq1 ht2
    cases r2 with
    | error e =>
      simp only [h2]
      exact ⟨hq2, errBound_propagate (errBound_lift hq1 he2)⟩
    | ok x2 =>
      simp only [h2]
      obtain ⟨ht3, he3⟩ := tab_inv q2
      rcases h3 : q2.tab with ⟨r3, q3⟩
      rw [h3] at ht3 he3
      have hq3 : Progress p q3 := progress_trans hq2 ht3
      cases r3 with
      | error e =>
        simp only [h3]
        exact ⟨hq3, errBound_propagate (errBound_lift hq2 he3)⟩
      | ok x3 =>
        simp only [h3]
        obtain ⟨ht4, he4⟩ := parse_u32_inv q3
        rcases h4 : q3.parse_u32 with ⟨r4, q4⟩
        rw [h4] at ht4 he4
        have hq4 : Progress p q4 := progress_trans hq3 ht4
        cases r4 with
        | error e =>
          simp only [h4]
          exact ⟨hq4, errBound_propagate (errBound_lift hq3 he4)⟩
        | ok x4 =>
          simp only [h4]
          obtain ⟨ht5, he5⟩ := tab_inv q4
          rcases h5 : q4.tab with ⟨r5, q5⟩
          rw [h5] at ht5 he5
          have hq5 : Progress p q5 := progress_trans hq4 ht5
          cases r5 with
          | error e =>
            simp only [h5]
            exact ⟨hq5, errBound_propagate (errBound_lift hq4 he5)⟩
          | ok x5 =>
            simp only [h5]
            obtain ⟨ht6, he6⟩ := single_digit_inv q5
            rcases h6 : q5.single_digit with ⟨r6, q6⟩
            rw [h6] at ht6 he6
            have hq6 : Progress p q6 := progress_trans hq5 ht6
            cases r6 with
            | error e =>
              simp only [h6]
              exact ⟨hq6, errBound_propagate (errBound_lift hq5 he6)⟩
            | ok x6 =>
              simp only [h6]
              rcases htf : DepKind.tryFrom x6 with k | kind
              · simp only [htf]
                exact ⟨hq6, errBound_lift hq6 (errBound_at q6 k)⟩
              · simp only [htf]
                exact ⟨progress_trans hq6 (progress_sl q6), errBound_ok _ _⟩

/-- Invariant step for parse_c: the rule preserves the buffer, never moves
    the cursor backwards or out of bounds, and stamps every error inside
    the buffer, given it starts on an available byte. -/
theorem parse_c_inv (p : Parser) (hp : p.pos < p.input.length) :
    Progress p (p.parse_c).2 ∧ ErrBound p (p.parse_c).1 := by
  unfold Parser.parse_c
  have hb : Progress p p.bump := progress_bump_lt p hp
  have hq0 : Progress p (p.bump.eat 61).2 :=
    progress_trans hb (eat_progress p.bump 61)
  obtain ⟨ht1, he1⟩ := tab_inv (p.bump.eat 61).2
  rcases h1 : (p.bump.eat 61).2.tab with ⟨r1, q1⟩
  rw [h1] at ht1 he1
  have hq1 : Progress p q1 := progress_trans hq0 ht1
  cases r1 with
  | error e =>
    simp only [h1]
    exact ⟨hq1, errBound_propagate (errBound_lift hq0 he1)⟩
  | ok x1 =>
    simp only [h1]
    obtain ⟨ht2, he2⟩ := parse_i32_inv q1
    rcases h2 : q1.parse_i32 with ⟨r2, q2⟩
    rw [h2] at ht2 he2
    have hq2 : Progress p q2 := progress_trans hq1 ht2
    cases r2 with
    | error e =>
      simp only [h2]
      exact ⟨hq2, errBound_propagate (errBound_lift hq1 he2)⟩
    | ok x2 =>
      simp only [h2]
      exact ⟨progress_trans hq2 (progress_sl q2), errBound_ok _ _⟩

/-- Invariant step for parse_header: on a literal mismatch nothing is consumed;
    otherwise the seven literal bytes, the version and the trailer are consumed
    in bounds. -/
theorem parse_header_inv (p : Parser) :
    Progress p p.parse_header.2 ∧ ErrBound p p.parse_header.1 := by
  unfold Parser.parse_header
  by_cases hk : p.rest.take 7 = kanataLit
  · rw [if_pos hk]
    have h7 : 7 ≤ p.rest.length := by
      have hlen := congrArg List.length hk
      rw [List.length_take] at hlen
      simp [kanataLit] at hlen
      omega
    rw [rest_length] at h7
    have hq0 : Progress p (p.advance 7) :=
      ⟨rfl, by rw [advance_pos]; omega, fun h => by rw [advance_pos]; omega⟩
    obtain ⟨ht1, he1⟩ := parse_u32_inv (p.advance 7)
    rcases h1 : (p.advance 7).parse_u32 with ⟨r1, q1⟩
    rw [h1] at ht1 he1
    have hq1 : Progress p q1 := progress_trans hq0 ht1
    cases r1 with
    | error e =>
      simp only [h1]
      exact ⟨hq1, errBound_propagate (errBound_lift hq0 he1)⟩
    | ok x1 =>
      simp only [h1]
      exact ⟨progress_trans hq1 (progress_sl q1), errBound_ok _ _⟩
  · rw [if_neg hk]
    exact ⟨progress_refl p, errBound_at p _⟩

/-- Result of a pull when a byte is available: dispatch on the tag byte. -/
theorem next_some_eq (p : Parser) (b : Nat) (hc : p.current = some b) :
    p.next =
      some ((p.pos,
        (if b = 75 then p.parse_header
         else if b = 67 then p.parse_c
         else if b = 73 then p.parse_i
         else if b = 76 then p.parse_l
         else if b = 83 then p.parse_pipeline true
         else if b = 69 then p.parse_pipeline false
         else if b = 82 then p.parse_r
         else if b = 87 then p.parse_w
         else (.error (p.error .UnexpectedCharacter), p)).1),
        (if b = 75 then p.parse_header
         else if b = 67 then p.parse_c
         else if b = 73 then p.parse_i
         else if b = 76 then p.parse_l
         else if b = 83 then p.parse_pipeline true
         else if b = 69 then p.parse_pipeline false
         else if b = 82 then p.parse_r
         else if b = 87 then p.parse_w
         else (.error (p.error .UnexpectedCharacter), p)).2) := by
  unfold Parser.next
  rw [hc]
  rfl

/-- Result of a pull at end of buffer. -/
theorem next_none_eq (p : Parser) (hc : p.current = none) : p.next = none := by
  unfold Parser.next
  rw [hc]

/-- Invariant of one pull: the yielded offset is the cursor, the new state has
    progressed over the same buffer in bounds, and any yielded error is stamped
    inside the buffer. -/
theorem next_inv (p : Parser) (off : Nat) (r : Except ParseError Command)
    (q : Parser) (h : p.next = some ((off, r), q)) :
    off = p.pos ∧ Progress p q ∧ ErrBound p r := by
  match hc : p.current with
  | none =>
    rw [next_none_eq p hc] at h
    exact absurd h (by simp)
  | some b =>
    have hlt := current_some_lt p b hc
    rw [next_some_eq p b hc] at h
    have hinv : Progress p
        (if b = 75 then p.parse_header
         else if b = 67 then p.parse_c
         else if b = 73 then p.parse_i
         else if b = 76 then p.parse_l
         else if b = 83 then p.parse_pipeline true
         else if b = 69 then p.parse_pipeline false
         else if b = 82 then p.parse_r
         else if b = 87 then p.parse_w
         else (.error (p.error .UnexpectedCharacter), p)).2 ∧
        ErrBound p
        (if b = 75 then p.parse_header
         else if b = 67 then p.parse_c
         else if b = 73 then p.parse_i
         else if b = 76 then p.parse_l
         else if b = 83 then p.parse_pipeline true
         else if b = 69 then p.parse_pipeline false
         else if b = 82 then p.parse_r
         else if b = 87 then p.parse_w
         else (.error (p.error .UnexpectedCharacter), p)).1 := by
      by_cases h75 : b = 75
      · simp only [h75, if_true]
        exact parse_header_inv p
      · rw [if_neg h75]
        by_cases h67 : b = 67
        · rw [if_pos h67]
          exact parse_c_inv p hlt
        · rw [if_neg h67]
          by_cases h73 : b = 73
          · rw [if_pos h73]
            exact parse_i_inv p hlt
          · rw [if_neg h73]
            by_cases h76 : b = 76
            · rw [if_pos h76]
              exact parse_l_inv p hlt
            · rw [if_neg h76]
              by_cases h83 : b = 83
              · rw [if_pos h83]
                exact parse_pipeline_inv p true hlt
              · rw [if_neg h83]
                by_cases h69 : b = 69
                · rw [if_pos h69]
                  exact parse_pipeline_inv p false hlt
                · rw [if_neg h69]
                  by_cases h82 : b = 82
                  · rw [if_pos h82]
                    exact parse_r_inv p hlt
                  · rw [if_neg h82]
                    by_cases h87 : b = 87
                    · rw [if_pos h87]
                      exact parse_w_inv p hlt
                    · rw [if_neg h87]
                      exact ⟨progress_refl p, errBound_at p _⟩
    simp only [Option.some.injEq, Prod.mk.injEq] at h
    obtain ⟨⟨hoff, hr⟩, hq⟩ := h
    subst hoff
    subst hr
    subst hq
    exact ⟨rfl, hinv.1, hinv.2⟩

/-- Wrapping fold of the parse_u64 accumulator over a whole digit string. -/
def accumVal (v : Nat) (ds : List Nat) : Nat :=
  ds.foldl (fun a b => (a * 10 + (b - 48)) % 2 ^ 64) v

/-- Exact decimal fold from an arbitrary accumulator. -/
def decValFrom (v : Nat) (ds : List Nat) : Nat :=
  ds.foldl (fun a b => a * 10 + (b - 48)) v

/-- Whether a list does not begin with an ASCII digit. -/
def headNotDigit : List Nat → Bool
  | [] => true
  | c :: _ => !(isDigit c)

theorem accumDigits_append (ds : List Nat) (hds : ∀ b ∈ ds, isDigit b = true) :
    ∀ (B : List Nat) (v : Nat), headNotDigit B = true →
      accumDigits v (ds ++ B) = (accumVal v ds, ds.length) := by
  induction ds with
  | nil =>
    intro B v hB
    match B with
    | [] => rfl
    | c :: cs =>
      simp only [headNotDigit, Bool.not_eq_true'] at hB
      simp [accumDigits, hB, accumVal]
  | cons d ds ih =>
    intro B v hB
    have hd : isDigit d = true := hds d (by simp)
    simp only [List.cons_append, accumDigits, hd, if_true, List.append_eq]
    rw [ih (fun b hb => hds b (by simp [hb])) B _ hB]
    simp [accumVal]

theorem decValFrom_ge (ds : List Nat) : ∀ v : Nat, v ≤ decValFrom v ds := by
  induction ds with
  | nil => intro v; simp [decValFrom]
  | cons d ds ih =>
    intro v
    have h1 : v ≤ v * 10 + (d - 48) := by omega
    have h2 := ih (v * 10 + (d - 48))
    simp only [decValFrom, List.foldl_cons] at h2 ⊢
    omega

theorem accumVal_eq_decValFrom (ds : List Nat) :
    ∀ v : Nat, decValFrom v ds < 2 ^ 64 → accumVal v ds = decValFrom v ds := by
  induction ds with
  | nil => intro v _; rfl
  | cons d ds ih =>
    intro v h
    have hstep : v * 10 + (d - 48) ≤ decValFrom v (d :: ds) := by
      have := decValFrom_ge ds (v * 10 + (d - 48))
      simp only [decValFrom, List.foldl_cons] at this ⊢
      omega
    have hlt : v * 10 + (d - 48) < 2 ^ 64 := lt_of_le_of_lt hstep h
    simp only [accumVal, decValFrom, List.foldl_cons] at h ⊢
    rw [Nat.mod_eq_of_lt hlt]
    exact ih _ (by simpa [decValFrom] using h)

/-- With no 64-bit overflow the accumulator computes the literal decimal value. -/
theorem accumVal_eq_decVal (ds : List Nat) (h : decVal ds < 2 ^ 64) :
    accumVal 0 ds = decVal ds :=
  accumVal_eq_decValFrom ds 0 h

/-- memchr2 finds the boundary byte right after a clean text span. -/
theorem memchr2_at_boundary (ts : List Nat) (c : Nat) (B : List Nat)
    (hts : ∀ b ∈ ts, b ≠ 13 ∧ b ≠ 10) (hc : c = 13 ∨ c = 10) :
    memchr2 13 10 (ts ++ c :: B) = some ts.length := by
  induction ts with
  | nil => simp [memchr2, hc]
  | cons t ts ih =>
    have ht := hts t (by simp)
    simp only [List.cons_append, memchr2, List.append_eq]
    rw [if_neg (by omega)]
    rw [ih (fun b hb => hts b (by simp [hb]))]
    simp

/-- Dropping the length of a named concatenation yields the tail part. -/
theorem drop_eq_of_append (inp A B : List Nat) (n : Nat) (h : inp = A ++ B)
    (hn : n = A.length) : inp.drop n = B := by
  subst h
  subst hn
  exact List.drop_left A B

/-- Tail of the buffer at an explicit state. -/
theorem rest_mk (inp : List Nat) (n : Nat) :
    (⟨inp, n⟩ : Parser).rest = inp.drop n := rfl

/-- Current byte at an explicit state. -/
theorem current_mk (inp : List Nat) (n : Nat) :
    (⟨inp, n⟩ : Parser).current = (inp.drop n).head? := rfl

/-- tab at an explicit state sitting on a tab byte. -/
theorem tab_mk (inp : List Nat) (n : Nat) (B : List Nat)
    (h : inp.drop n = 9 :: B) :
    (⟨inp, n⟩ : Parser).tab = (.ok (), ⟨inp, n + 1⟩) := by
  have hc : (⟨inp, n⟩ : Parser).current = some 9 := by
    rw [current_mk, h]
    rfl
  unfold Parser.tab
  rw [expect_some_eq _ 9 9 hc, if_pos rfl]
  rfl

/-- single_digit at an explicit state sitting on a digit byte. -/
theorem single_digit_mk (inp : List Nat) (n : Nat) (d : Nat) (B : List Nat)
    (h : inp.drop n = d :: B) (hd : isDigit d = true) :
    (⟨inp, n⟩ : Parser).single_digit = (.ok d, ⟨inp, n + 1⟩) := by
  have hc : (⟨inp, n⟩ : Parser).current = some d := by
    rw [current_mk, h]
    rfl
  rw [single_digit_some_eq _ d hc, if_pos hd]
  rfl

/-- parse_u64 at an explicit state sitting on a maximal digit run. -/
theorem parse_u64_mk (inp : List Nat) (n : Nat) (ds B : List Nat)
    (h : inp.drop n = ds ++ B) (hne : ds ≠ [])
    (hds : ∀ b ∈ ds, isDigit b = true) (hB : headNotDigit B = true) :
    (⟨inp, n⟩ : Parser).parse_u64 = (.ok (accumVal 0 ds), ⟨inp, n + ds.length⟩) := by
  rw [parse_u64_eq, rest_mk, h, accumDigits_append ds hds B 0 hB]
  have hpos : ds.length > 0 := List.length_pos.mpr hne
  simp [hpos, Parser.advance]

/-- parse_u32 at an explicit state sitting on an in-range digit run. -/
theorem parse_u32_mk (inp : List Nat) (n : Nat) (ds B : List Nat)
    (h : inp.drop n = ds ++ B) (hne : ds ≠ [])
    (hds : ∀ b ∈ ds, isDigit b = true) (hB : headNotDigit B = true)
    (hval : decVal ds ≤ 2 ^ 32 - 1) :
    (⟨inp, n⟩ : Parser).parse_u32 = (.ok (decVal ds), ⟨inp, n + ds.length⟩) := by
  have hsmall : decVal ds < 2 ^ 64 := by
    have : (2 : Nat) ^ 32 - 1 < 2 ^ 64 := by norm_num
    omega
  have hacc := accumVal_eq_decVal ds hsmall
  rw [parse_u32_ok_eq _ _ _ (parse_u64_mk inp n ds B h hne hds hB), hacc,
    if_pos hval]

/-- text at an explicit state sitting on a clean nonempty span ended by CR/LF. -/
theorem text_mk (inp : List Nat) (n : Nat) (ts : List Nat) (c : Nat) (B : List Nat)
    (h : inp.drop n = ts ++ c :: B) (hne : ts ≠ [])
    (hts : ∀ b ∈ ts, b ≠ 13 ∧ b ≠ 10) (hc : c = 13 ∨ c = 10) :
    (⟨inp, n⟩ : Parser).text =
      (.ok (StrRef.new n ts.length), ⟨inp, n + ts.length⟩) := by
  rw [text_eq, rest_mk, h, memchr2_at_boundary ts c B hts hc]
  have h0 : ¬(ts.length = 0) := by simpa using hne
  simp [h0, Parser.advance]

/-- spaces at an explicit state sitting on a byte that is not space or tab. -/
theorem spaces_mk (inp : List Nat) (n : Nat) (c : Nat) (B : List Nat)
    (h : inp.drop n = c :: B) (hc : ¬(c = 32 ∨ c = 9)) :
    (⟨inp, n⟩ : Parser).spaces = ⟨inp, n⟩ := by
  unfold Parser.spaces
  rw [rest_mk, h]
  simp only [spacesCount, hc, if_false]
  exact advance_zero _

/-- lineend at an explicit state sitting on a final LF. -/
theorem lineend_mk (inp : List Nat) (n : Nat) (h : inp.drop n = [10]) :
    (⟨inp, n⟩ : Parser).lineend = ⟨inp, n + 1⟩ := by
  rw [lineend_shape, rest_mk, h]
  rfl

/-- eat at an explicit state sitting on the expected byte. -/
theorem eat_hit_mk (inp : List Nat) (n b : Nat) (B : List Nat)
    (h : inp.drop n = b :: B) :
    (⟨inp, n⟩ : Parser).eat b = (true, ⟨inp, n + 1⟩) := by
  have hc : (⟨inp, n⟩ : Parser).current = some b := by
    rw [current_mk, h]
    rfl
  rw [eat_some_eq _ b b hc, if_pos rfl]
  rfl

/-- eat at an explicit state sitting on a different byte. -/
theorem eat_miss_mk (inp : List Nat) (n b c : Nat) (B : List Nat)
    (h : inp.drop n = c :: B) (hcb : c ≠ b) :
    (⟨inp, n⟩ : Parser).eat b = (false, ⟨inp, n⟩) := by
  have hc : (⟨inp, n⟩ : Parser).current = some c := by
    rw [current_mk, h]
    rfl
  rw [eat_some_eq _ c b hc, if_neg hcb]

/-- parse_u64 in terms of the literal decimal value, below 2^64. -/
theorem parse_u64_mk_val (inp : List Nat) (n : Nat) (ds B : List Nat)
    (h : inp.drop n = ds ++ B) (hne : ds ≠ [])
    (hds : ∀ b ∈ ds, isDigit b = true) (hB : headNotDigit B = true)
    (hval : decVal ds < 2 ^ 64) :
    (⟨inp, n⟩ : Parser).parse_u64 = (.ok (decVal ds), ⟨inp, n + ds.length⟩) := by
  rw [parse_u64_mk inp n ds B h hne hds hB, accumVal_eq_decVal ds hval]

/-- parse_i32 at an explicit state sitting on an unsigned in-range digit run. -/
theorem parse_i32_mk_nosign (inp : List Nat) (n : Nat) (ds B : List Nat)
    (h : inp.drop n = ds ++ B) (hne : ds ≠ [])
    (hds : ∀ b ∈ ds, isDigit b = true) (hB : headNotDigit B = true)
    (hval : decVal ds ≤ 2 ^ 31 - 1) :
    (⟨inp, n⟩ : Parser).parse_i32 =
      (.ok ((decVal ds : Nat) : Int), ⟨inp, n + ds.length⟩) := by
  obtain ⟨d, ds', hds'⟩ : ∃ d ds', ds = d :: ds' := by
    cases ds with
    | nil => exact absurd rfl hne
    | cons d ds' => exact ⟨d, ds', rfl⟩
  have hd : isDigit d = true := hds d (by rw [hds']; simp)
  have hc : (⟨inp, n⟩ : Parser).current = some d := by
    rw [current_mk, h, hds']
    rfl
  have h45 : ¬(d = 45 ∨ d = 43) := by
    simp only [isDigit, decide_eq_true_eq] at hd
    omega
  have hsmall : decVal ds < 2 ^ 64 := by
    have : (2 : Nat) ^ 31 - 1 < 2 ^ 64 := by norm_num
    omega
  have hu : (⟨inp, n⟩ : Parser).parse_u64 = (.ok (decVal ds), ⟨inp, n + ds.length⟩) :=
    parse_u64_mk_val inp n ds B h hne hds hB hsmall
  rw [parse_i32_ok_eq (⟨inp, n⟩ : Parser) (⟨inp, n⟩ : Parser) _ d (decVal ds) hc
    (if_neg h45).symm hu]
  rw [if_pos hval, if_neg (by omega : ¬(d = 45))]

/-- parse_i32 at an explicit state sitting on a minus sign and an in-range
    digit run. -/
theorem parse_i32_mk_minus (inp : List Nat) (n : Nat) (ds B : List Nat)
    (h : inp.drop n = 45 :: (ds ++ B)) (hne : ds ≠ [])
    (hds : ∀ b ∈ ds, isDigit b = true) (hB : headNotDigit B = true)
    (hval : decVal ds ≤ 2 ^ 31 - 1) :
    (⟨inp, n⟩ : Parser).parse_i32 =
      (.ok (-((decVal ds : Nat) : Int)), ⟨inp, n + 1 + ds.length⟩) := by
  have hc : (⟨inp, n⟩ : Parser).current = some 45 := by
    rw [current_mk, h]
    rfl
  have hdrop : inp.drop (n + 1) = ds ++ B := by
    have : inp.drop (n + 1) = (inp.drop n).tail := by
      rw [← List.tail_drop]
    rw [this, h]
    rfl
  have hsmall : decVal ds < 2 ^ 64 := by
    have : (2 : Nat) ^ 31 - 1 < 2 ^ 64 := by norm_num
    omega
  have hu : (⟨inp, n + 1⟩ : Parser).parse_u64 =
      (.ok (decVal ds), ⟨inp, n + 1 + ds.length⟩) :=
    parse_u64_mk_val inp (n + 1) ds B hdrop hne hds hB hsmall
  rw [parse_i32_ok_eq (⟨inp, n⟩ : Parser) (⟨inp, n + 1⟩ : Parser) _ 45 (decVal ds) hc
    (by rw [if_pos (Or.inl rfl)]; rfl) hu]
  rw [if_pos hval, if_pos rfl]

/-- parse_i32 at an explicit state sitting on a plus sign and an in-range
    digit run. -/
theorem parse_i32_mk_plus (inp : List Nat) (n : Nat) (ds B : List Nat)
    (h : inp.drop n = 43 :: (ds ++ B)) (hne : ds ≠ [])
    (hds : ∀ b ∈ ds, isDigit b = true) (hB : headNotDigit B = true)
    (hval : decVal ds ≤ 2 ^ 31 - 1) :
    (⟨inp, n⟩ : Parser).parse_i32 =
      (.ok ((decVal ds : Nat) : Int), ⟨inp, n + 1 + ds.length⟩) := by
  have hc : (⟨inp, n⟩ : Parser).current = some 43 := by
    rw [current_mk, h]
    rfl
  have hdrop : inp.drop (n + 1) = ds ++ B := by
    have : inp.drop (n + 1) = (inp.drop n).tail := by
      rw [← List.tail_drop]
    rw [this, h]
    rfl
  have hsmall : decVal ds < 2 ^ 64 := by
    have : (2 : Nat) ^ 31 - 1 < 2 ^ 64 := by norm_num
    omega
  have hu : (⟨inp, n + 1⟩ : Parser).parse_u64 =
      (.ok (decVal ds), ⟨inp, n + 1 + ds.length⟩) :=
    parse_u64_mk_val inp (n + 1) ds B hdrop hne hds hB hsmall
  rw [parse_i32_ok_eq (⟨inp, n⟩ : Parser) (⟨inp, n + 1⟩ : Parser) _ 43 (decVal ds) hc
    (by rw [if_pos (Or.inr rfl)]; rfl) hu]
  rw [if_pos hval, if_neg (by omega : ¬(43 = 45))]

/-- A log-kind digit accepted by try_from is an ASCII digit. -/
theorem logKind_tryFrom_ok_digit (k : Nat) (kind : LogKind)
    (h : LogKind.tryFrom k = .ok kind) : isDigit k = true := by
  unfold LogKind.tryFrom at h
  split_ifs at h with h1 h2 h3
  · subst h1; decide
  · subst h2; decide
  · subst h3; decide

/-- A retire-kind digit accepted by try_from is an ASCII digit. -/
theorem retireKind_tryFrom_ok_digit (k : Nat) (kind : RetireKind)
    (h : RetireKind.tryFrom k = .ok kind) : isDigit k = true := by
  unfold RetireKind.tryFrom at h
  split_ifs at h with h1 h2
  · subst h1; decide
  · subst h2; decide

/-- A dependency-kind digit accepted by try_from is an ASCII digit. -/
theorem depKind_tryFrom_ok_digit (k : Nat) (kind : DepKind)
    (h : DepKind.tryFrom k = .ok kind) : isDigit k = true := by
  unfold DepKind.tryFrom at h
  split_ifs at h with h1
  · subst h1; decide

/-- Pull of a well-formed header record: the version field decodes to the
    literal decimal value and the whole record is consumed. -/
theorem header_run (ds : List Nat) (hne : ds ≠ [])
    (hds : ∀ b ∈ ds, isDigit b = true) (hval : decVal ds ≤ 2 ^ 32 - 1) :
    Parser.next ⟨75 :: 97 :: 110 :: 97 :: 116 :: 97 :: 9 :: (ds ++ [10]), 0⟩ =
      some ((0, .ok (.Kanata (decVal ds))),
        ⟨75 :: 97 :: 110 :: 97 :: 116 :: 97 :: 9 :: (ds ++ [10]), ds.length + 8⟩) := by
  set inp := 75 :: 97 :: 110 :: 97 :: 116 :: 97 :: 9 :: (ds ++ [10]) with hinp
  have hc : (⟨inp, 0⟩ : Parser).current = some 75 := by
    rw [current_mk, hinp]
    rfl
  have e1 : (⟨inp, 0⟩ : Parser).rest.take 7 = kanataLit := by
    rw [rest_mk, hinp]
    rfl
  have e2 : (⟨inp, 0⟩ : Parser).advance 7 = (⟨inp, 7⟩ : Parser) := rfl
  have e3 : (⟨inp, 7⟩ : Parser).parse_u32 = (.ok (decVal ds), ⟨inp, 7 + ds.length⟩) :=
    parse_u32_mk inp 7 ds [10] (by rw [hinp]; rfl) hne hds (by rfl) hval
  have e4 : (⟨inp, 7 + ds.length⟩ : Parser).spaces = (⟨inp, 7 + ds.length⟩ : Parser) :=
    spaces_mk inp _ 10 []
      (drop_eq_of_append inp (75 :: 97 :: 110 :: 97 :: 116 :: 97 :: 9 :: ds) [10]
        _ (by rw [hinp]; simp) (by simp only [List.length_cons]; omega))
      (by norm_num)
  have e5 : (⟨inp, 7 + ds.length⟩ : Parser).lineend = (⟨inp, 7 + ds.length + 1⟩ : Parser) :=
    lineend_mk inp _
      (drop_eq_of_append inp (75 :: 97 :: 110 :: 97 :: 116 :: 97 :: 9 :: ds) [10]
        _ (by rw [hinp]; simp) (by simp only [List.length_cons]; omega))
  have hH : (⟨inp, 0⟩ : Parser).parse_header =
      (.ok (.Kanata (decVal ds)), ⟨inp, 7 + ds.length + 1⟩) := by
    unfold Parser.parse_header
    rw [if_pos e1]
    simp only [e2, e3, e4, e5]
  rw [next_some_eq _ 75 hc, if_pos rfl, hH]
  rw [show 7 + ds.length + 1 = ds.length + 8 from by omega]

/-- Pull of a well-formed instruction record: the three id fields decode to
    their literal decimal values and the whole record is consumed. -/
theorem instruction_run (ds1 ds2 ds3 : List Nat)
    (hne1 : ds1 ≠ []) (hds1 : ∀ b ∈ ds1, isDigit b = true)
    (hval1 : decVal ds1 ≤ 2 ^ 32 - 1)
    (hne2 : ds2 ≠ []) (hds2 : ∀ b ∈ ds2, isDigit b = true)
    (hval2 : decVal ds2 ≤ 2 ^ 32 - 1)
    (hne3 : ds3 ≠ []) (hds3 : ∀ b ∈ ds3, isDigit b = true)
    (hval3 : decVal ds3 ≤ 2 ^ 32 - 1) :
    Parser.next ⟨73 :: 9 :: (ds1 ++ (9 :: (ds2 ++ (9 :: (ds3 ++ [10]))))), 0⟩ =
      some ((0, .ok (.Instruction (decVal ds1) (decVal ds2) (decVal ds3))),
        ⟨73 :: 9 :: (ds1 ++ (9 :: (ds2 ++ (9 :: (ds3 ++ [10]))))),
          ds1.length + ds2.length + ds3.length + 5⟩) := by
  set inp := 73 :: 9 :: (ds1 ++ (9 :: (ds2 ++ (9 :: (ds3 ++ [10]))))) with hinp
  have hc : (⟨inp, 0⟩ : Parser).current = some 73 := by
    rw [current_mk, hinp]
    rfl
  have e0 : (⟨inp, 0⟩ : Parser).bump = (⟨inp, 1⟩ : Parser) := rfl
  have e1 : (⟨inp, 1⟩ : Parser).tab = (.ok (), ⟨inp, 2⟩) :=
    tab_mk inp 1 _ (by rw [hinp]; rfl)
  have e2 : (⟨inp, 2⟩ : Parser).parse_u32 =
      (.ok (decVal ds1), ⟨inp, 2 + ds1.length⟩) :=
    parse_u32_mk inp 2 ds1 (9 :: (ds2 ++ (9 :: (ds3 ++ [10]))))
      (by rw [hinp]; rfl) hne1 hds1 (by rfl) hval1
  have e3 : (⟨inp, 2 + ds1.length⟩ : Parser).tab =
      (.ok (), ⟨inp, 2 + ds1.length + 1⟩) :=
    tab_mk inp _ (ds2 ++ (9 :: (ds3 ++ [10])))
      (drop_eq_of_append inp (73 :: 9 :: ds1) _ _ (by rw [hinp]; simp)
        (by simp only [List.length_cons]; omega))
  have e4 : (⟨inp, 2 + ds1.length + 1⟩ : Parser).parse_u32 =
      (.ok (decVal ds2), ⟨inp, 2 + ds1.length + 1 + ds2.length⟩) :=
    parse_u32_mk inp _ ds2 (9 :: (ds3 ++ [10]))
      (drop_eq_of_append inp (73 :: 9 :: (ds1 ++ [9])) _ _
        (by rw [hinp]; simp)
        (by simp only [List.length_cons, List.length_append, List.length_nil]; omega))
      hne2 hds2 (by rfl) hval2
  have e5 : (⟨inp, 2 + ds1.length + 1 + ds2.length⟩ : Parser).tab =
      (.ok (), ⟨inp, 2 + ds1.length + 1 + ds2.length + 1⟩) :=
    tab_mk inp _ (ds3 ++ [10])
      (drop_eq_of_append inp (73 :: 9 :: (ds1 ++ 9 :: ds2)) _ _
        (by rw [hinp]; simp)
        (by simp only [List.length_cons, List.length_append]; omega))
  have e6 : (⟨inp, 2 + ds1.length + 1 + ds2.length + 1⟩ : Parser).parse_u32 =
      (.ok (decVal ds3), ⟨inp, 2 + ds1.length + 1 + ds2.length + 1 + ds3.length⟩) :=
    parse_u32_mk inp _ ds3 [10]
      (drop_eq_of_append inp (73 :: 9 :: (ds1 ++ 9 :: (ds2 ++ [9]))) _ _
        (by rw [hinp]; simp)
        (by simp only [List.length_cons, List.length_append, List.length_nil]; omega))
      hne3 hds3 (by rfl) hval3
  have e7 : (⟨inp, 2 + ds1.length + 1 + ds2.length + 1 + ds3.length⟩ : Parser).spaces =
      (⟨inp, 2 + ds1.length + 1 + ds2.length + 1 + ds3.length⟩ : Parser) :=
    spaces_mk inp _ 10 []
      (drop_eq_of_append inp (73 :: 9 :: (ds1 ++ 9 :: (ds2 ++ 9 :: ds3))) [10] _
        (by rw [hinp]; simp)
        (by simp only [List.length_cons, List.length_append]; omega))
      (by norm_num)
  have e8 : (⟨inp, 2 + ds1.length + 1 + ds2.length + 1 + ds3.length⟩ : Parser).lineend =
      (⟨inp, 2 + ds1.length + 1 + ds2.length + 1 + ds3.length + 1⟩ : Parser) :=
    lineend_mk inp _
      (drop_eq_of_append inp (73 :: 9 :: (ds1 ++ 9 :: (ds2 ++ 9 :: ds3))) [10] _
        (by rw [hinp]; simp)
        (by simp only [List.length_cons, List.length_append]; omega))
  have hI : (⟨inp, 0⟩ : Parser).parse_i =
      (.ok (.Instruction (decVal ds1) (decVal ds2) (decVal ds3)),
        ⟨inp, 2 + ds1.length + 1 + ds2.length + 1 + ds3.length + 1⟩) := by
    unfold Parser.parse_i
    simp only [e0, e1, e2, e3, e4, e5, e6, e7, e8]
  rw [next_some_eq _ 73 hc, if_neg (by norm_num), if_neg (by norm_num),
    if_pos rfl, hI]
  rw [show 2 + ds1.length + 1 + ds2.length + 1 + ds3.length + 1 =
    ds1.length + ds2.length + ds3.length + 5 from by omega]

/-- Pull of a well-formed log record: id, kind and text span decode to the
    literal values and the whole record is consumed. -/
theorem log_run (ds ts : List Nat) (k : Nat) (kind : LogKind)
    (hne : ds ≠ []) (hds : ∀ b ∈ ds, isDigit b = true)
    (hval : decVal ds ≤ 2 ^ 32 - 1)
    (htf : LogKind.tryFrom k = .ok kind)
    (hts : ts ≠ []) (hclean : ∀ b ∈ ts, b ≠ 13 ∧ b ≠ 10) :
    Parser.next ⟨76 :: 9 :: (ds ++ (9 :: k :: 9 :: (ts ++ [10]))), 0⟩ =
      some ((0, .ok (.Log (decVal ds) kind (StrRef.new (ds.length + 5) ts.length))),
        ⟨76 :: 9 :: (ds ++ (9 :: k :: 9 :: (ts ++ [10]))),
          ds.length + 5 + ts.length + 1⟩) := by
  set inp := 76 :: 9 :: (ds ++ (9 :: k :: 9 :: (ts ++ [10]))) with hinp
  have hc : (⟨inp, 0⟩ : Parser).current = some 76 := by
    rw [current_mk, hinp]
    rfl
  have e0 : (⟨inp, 0⟩ : Parser).bump = (⟨inp, 1⟩ : Parser) := rfl
  have e1 : (⟨inp, 1⟩ : Parser).tab = (.ok (), ⟨inp, 2⟩) :=
    tab_mk inp 1 _ (by rw [hinp]; rfl)
  have e2 : (⟨inp, 2⟩ : Parser).parse_u32 =
      (.ok (decVal ds), ⟨inp, 2 + ds.length⟩) :=
    parse_u32_mk inp 2 ds (9 :: k :: 9 :: (ts ++ [10]))
      (by rw [hinp]; rfl) hne hds (by rfl) hval
  have e3 : (⟨inp, 2 + ds.length⟩ : Parser).tab =
      (.ok (), ⟨inp, 2 + ds.length + 1⟩) :=
    tab_mk inp _ (k :: 9 :: (ts ++ [10]))
      (drop_eq_of_append inp (76 :: 9 :: ds) _ _ (by rw [hinp]; simp)
        (by simp only [List.length_cons]; omega))
  have e4 : (⟨inp, 2 + ds.length + 1⟩ : Parser).single_digit =
      (.ok k, ⟨inp, 2 + ds.length + 1 + 1⟩) :=
    single_digit_mk inp _ k (9 :: (ts ++ [10]))
      (drop_eq_of_append inp (76 :: 9 :: (ds ++ [9])) _ _ (by rw [hinp]; simp)
        (by simp only [List.length_cons, List.length_append, List.length_nil]; omega))
      (logKind_tryFrom_ok_digit k kind htf)
  have e5 : (⟨inp, 2 + ds.length + 1 + 1⟩ : Parser).tab =
      (.ok (), ⟨inp, 2 + ds.length + 1 + 1 + 1⟩) :=
    tab_mk inp _ (ts ++ [10])
      (drop_eq_of_append inp (76 :: 9 :: (ds ++ 9 :: [k])) _ _ (by rw [hinp]; simp)
        (by simp only [List.length_cons, List.length_append, List.length_nil]; omega))
  have e6 : (⟨inp, 2 + ds.length + 1 + 1 + 1⟩ : Parser).text =
      (.ok (StrRef.new (2 + ds.length + 1 + 1 + 1) ts.length),
        ⟨inp, 2 + ds.length + 1 + 1 + 1 + ts.length⟩) :=
    text_mk inp _ ts 10 []
      (drop_eq_of_append inp (76 :: 9 :: (ds ++ 9 :: k :: [9])) _ _
        (by rw [hinp]; simp)
        (by simp only [List.length_cons, List.length_append, List.length_nil]; omega))
      hts hclean (Or.inr rfl)
  have e7 : (⟨inp, 2 + ds.length + 1 + 1 + 1 + ts.length⟩ : Parser).lineend =
      (⟨inp, 2 + ds.length + 1 + 1 + 1 + ts.length + 1⟩ : Parser) :=
    lineend_mk inp _
      (drop_eq_of_append inp (76 :: 9 :: (ds ++ 9 :: k :: 9 :: ts)) [10] _
        (by rw [hinp]; simp)
        (by simp only [List.length_cons, List.length_append]; omega))
  have hL : (⟨inp, 0⟩ : Parser).parse_l =
      (.ok (.Log (decVal ds) kind (StrRef.new (2 + ds.length + 1 + 1 + 1) ts.length)),
        ⟨inp, 2 + ds.length + 1 + 1 + 1 + ts.length + 1⟩) := by
    unfold Parser.parse_l
    simp only [e0, e1, e2, e3, e4, htf, e5, e6, e7]
  rw [next_some_eq _ 76 hc, if_neg (by norm_num), if_neg (by norm_num),
    if_neg (by norm_num), if_pos rfl, hL]
  rw [show 2 + ds.length + 1 + 1 + 1 = ds.length + 5 from by omega]

/-- Pull of a well-formed pipeline-stage record (tag S for entry, E for exit):
    the ids and the stage-name span decode to the literal values and the
    whole record is consumed. -/
theorem pipeline_run (tag : Nat) (start : Bool)
    (htag : (tag = 83 ∧ start = true) ∨ (tag = 69 ∧ start = false))
    (ds1 ds2 ts : List Nat)
    (hne1 : ds1 ≠ []) (hds1 : ∀ b ∈ ds1, isDigit b = true)
    (hval1 : decVal ds1 ≤ 2 ^ 32 - 1)
    (hne2 : ds2 ≠ []) (hds2 : ∀ b ∈ ds2, isDigit b = true)
    (hval2 : decVal ds2 ≤ 2 ^ 32 - 1)
    (hts : ts ≠ []) (hclean : ∀ b ∈ ts, b ≠ 13 ∧ b ≠ 10) :
    Parser.next ⟨tag :: 9 :: (ds1 ++ (9 :: (ds2 ++ (9 :: (ts ++ [10]))))), 0⟩ =
      some ((0, .ok (.Pipeline start (decVal ds1) (decVal ds2)
          (StrRef.new (ds1.length + ds2.length + 4) ts.length))),
        ⟨tag :: 9 :: (ds1 ++ (9 :: (ds2 ++ (9 :: (ts ++ [10]))))),
          ds1.length + ds2.length + 4 + ts.length + 1⟩) := by
  set inp := tag :: 9 :: (ds1 ++ (9 :: (ds2 ++ (9 :: (ts ++ [10]))))) with hinp
  have hc : (⟨inp, 0⟩ : Parser).current = some tag := by
    rw [current_mk, hinp]
    rfl
  have e0 : (⟨inp, 0⟩ : Parser).bump = (⟨inp, 1⟩ : Parser) := rfl
  have e1 : (⟨inp, 1⟩ : Parser).tab = (.ok (), ⟨inp, 2⟩) :=
    tab_mk inp 1 _ (by rw [hinp]; rfl)
  have e2 : (⟨inp, 2⟩ : Parser).parse_u32 =
      (.ok (decVal ds1), ⟨inp, 2 + ds1.length⟩) :=
    parse_u32_mk inp 2 ds1 (9 :: (ds2 ++ (9 :: (ts ++ [10]))))
      (by rw [hinp]; rfl) hne1 hds1 (by rfl) hval1
  have e3 : (⟨inp, 2 + ds1.length⟩ : Parser).tab =
      (.ok (), ⟨inp, 2 + ds1.length + 1⟩) :=
    tab_mk inp _ (ds2 ++ (9 :: (ts ++ [10])))
      (drop_eq_of_append inp (tag :: 9 :: ds1) _ _ (by rw [hinp]; simp)
        (by simp only [List.length_cons]; omega))
  have e4 : (⟨inp, 2 + ds1.length + 1⟩ : Parser).parse_u32 =
      (.ok (decVal ds2), ⟨inp, 2 + ds1.length + 1 + ds2.length⟩) :=
    parse_u32_mk inp _ ds2 (9 :: (ts ++ [10]))
      (drop_eq_of_append inp (tag :: 9 :: (ds1 ++ [9])) _ _ (by rw [hinp]; simp)
        (by simp only [List.length_cons, List.length_append, List.length_nil]; omega))
      hne2 hds2 (by rfl) hval2
  have e5 : (⟨inp, 2 + ds1.length + 1 + ds2.length⟩ : Parser).tab =
      (.ok (), ⟨inp, 2 + ds1.length + 1 + ds2.length + 1⟩) :=
    tab_mk inp _ (ts ++ [10])
      (drop_eq_of_append inp (tag :: 9 :: (ds1 ++ 9 :: ds2)) _ _
        (by rw [hinp]; simp)
        (by simp only [List.length_cons, List.length_append]; omega))
  have e6 : (⟨inp, 2 + ds1.length + 1 + ds2.length + 1⟩ : Parser).text =
      (.ok (StrRef.new (2 + ds1.length + 1 + ds2.length + 1) ts.length),
        ⟨inp, 2 + ds1.length + 1 + ds2.length + 1 + ts.length⟩) :=
    text_mk inp _ ts 10 []
      (drop_eq_of_append inp (tag :: 9 :: (ds1 ++ 9 :: (ds2 ++ [9]))) _ _
        (by rw [hinp]; simp)
        (by simp only [List.length_cons, List.length_append, List.length_nil]; omega))
      hts hclean (Or.inr rfl)
  have e7 : (⟨inp, 2 + ds1.length + 1 + ds2.length + 1 + ts.length⟩ : Parser).lineend =
      (⟨inp, 2 + ds1.length + 1 + ds2.length + 1 + ts.length + 1⟩ : Parser) :=
    lineend_mk inp _
      (drop_eq_of_append inp (tag :: 9 :: (ds1 ++ 9 :: (ds2 ++ 9 :: ts))) [10] _
        (by rw [hinp]; simp)
        (by simp only [List.length_cons, List.length_append]; omega))
  have hP : (⟨inp, 0⟩ : Parser).parse_pipeline start =
      (.ok (.Pipeline start (decVal ds1) (decVal ds2)
          (StrRef.new (2 + ds1.length + 1 + ds2.length + 1) ts.length)),
        ⟨inp, 2 + ds1.length + 1 + ds2.length + 1 + ts.length + 1⟩) := by
    unfold Parser.parse_pipeline
    simp only [e0, e1, e2, e3, e4, e5, e6, e7]
  rcases htag with ⟨htag, hstart⟩ | ⟨htag, hstart⟩ <;> subst htag <;> subst hstart
  · rw [next_some_eq _ 83 hc, if_neg (by norm_num), if_neg (by norm_num),
      if_neg (by norm_num), if_neg (by norm_num), if_pos rfl, hP]
    rw [show 2 + ds1.length + 1 + ds2.length + 1 = ds1.length + ds2.length + 4
      from by omega]
  · rw [next_some_eq _ 69 hc, if_neg (by norm_num), if_neg (by norm_num),
      if_neg (by norm_num), if_neg (by norm_num), if_neg (by norm_num),
      if_pos rfl, hP]
    rw [show 2 + ds1.length + 1 + ds2.length + 1 = ds1.length + ds2.length + 4
      from by omega]

/-- Pull of a well-formed retire record: ids and kind decode to the literal
    values and the whole record is consumed. -/
theorem retire_run (ds1 ds2 : List Nat) (k : Nat) (kind : RetireKind)
    (hne1 : ds1 ≠ []) (hds1 : ∀ b ∈ ds1, isDigit b = true)
    (hval1 : decVal ds1 ≤ 2 ^ 32 - 1)
    (hne2 : ds2 ≠ []) (hds2 : ∀ b ∈ ds2, isDigit b = true)
    (hval2 : decVal ds2 ≤ 2 ^ 32 - 1)
    (htf : RetireKind.tryFrom k = .ok kind) :
    Parser.next ⟨82 :: 9 :: (ds1 ++ (9 :: (ds2 ++ (9 :: k :: [10])))), 0⟩ =
      some ((0, .ok (.Retire (decVal ds1) (decVal ds2) kind)),
        ⟨82 :: 9 :: (ds1 ++ (9 :: (ds2 ++ (9 :: k :: [10])))),
          ds1.length + ds2.length + 6⟩) := by
  set inp := 82 :: 9 :: (ds1 ++ (9 :: (ds2 ++ (9 :: k :: [10])))) with hinp
  have hc : (⟨inp, 0⟩ : Parser).current = some 82 := by
    rw [current_mk, hinp]
    rfl
  have e0 : (⟨inp, 0⟩ : Parser).bump = (⟨inp, 1⟩ : Parser) := rfl
  have e1 : (⟨inp, 1⟩ : Parser).tab = (.ok (), ⟨inp, 2⟩) :=
    tab_mk inp 1 _ (by rw [hinp]; rfl)
  have e2 : (⟨inp, 2⟩ : Parser).parse_u32 =
      (.ok (decVal ds1), ⟨inp, 2 + ds1.length⟩) :=
    parse_u32_mk inp 2 ds1 (9 :: (ds2 ++ (9 :: k :: [10])))
      (by rw [hinp]; rfl) hne1 hds1 (by rfl) hval1
  have e3 : (⟨inp, 2 + ds1.length⟩ : Parser).tab =
      (.ok (), ⟨inp, 2 + ds1.length + 1⟩) :=
    tab_mk inp _ (ds2 ++ (9 :: k :: [10]))
      (drop_eq_of_append inp (82 :: 9 :: ds1) _ _ (by rw [hinp]; simp)
        (by simp only [List.length_cons]; omega))
  have e4 : (⟨inp, 2 + ds1.length + 1⟩ : Parser).parse_u32 =
      (.ok (decVal ds2), ⟨inp, 2 + ds1.length + 1 + ds2.length⟩) :=
    parse_u32_mk inp _ ds2 (9 :: k :: [10])
      (drop_eq_of_append inp (82 :: 9 :: (ds1 ++ [9])) _ _ (by rw [hinp]; simp)
        (by simp only [List.length_cons, List.length_append, List.length_nil]; omega))
      hne2 hds2 (by rfl) hval2
  have e5 : (⟨inp, 2 + ds1.length + 1 + ds2.length⟩ : Parser).tab =
      (.ok (), ⟨inp, 2 + ds1.length + 1 + ds2.length + 1⟩) :=
    tab_mk inp _ (k :: [10])
      (drop_eq_of_append inp (82 :: 9 :: (ds1 ++ 9 :: ds2)) _ _
        (by rw [hinp]; simp)
        (by simp only [List.length_cons, List.length_append]; omega))
  have e6 : (⟨inp, 2 + ds1.length + 1 + ds2.length + 1⟩ : Parser).single_digit =
      (.ok k, ⟨inp, 2 + ds1.length + 1 + ds2.length + 1 + 1⟩) :=
    single_digit_mk inp _ k [10]
      (drop_eq_of_append inp (82 :: 9 :: (ds1 ++ 9 :: (ds2 ++ [9]))) _ _
        (by rw [hinp]; simp)
        (by simp only [List.length_cons, List.length_append, List.length_nil]; omega))
      (retireKind_tryFrom_ok_digit k kind htf)
  have e7 : (⟨inp, 2 + ds1.length + 1 + ds2.length + 1 + 1⟩ : Parser).spaces =
      (⟨inp, 2 + ds1.length + 1 + ds2.length + 1 + 1⟩ : Parser) :=
    spaces_mk inp _ 10 []
      (drop_eq_of_append inp (82 :: 9 :: (ds1 ++ 9 :: (ds2 ++ 9 :: [k]))) [10] _
        (by rw [hinp]; simp)
        (by simp only [List.length_cons, List.length_append, List.length_nil]; omega))
      (by norm_num)
  have e8 : (⟨inp, 2 + ds1.length + 1 + ds2.length + 1 + 1⟩ : Parser).lineend =
      (⟨inp, 2 + ds1.length + 1 + ds2.length + 1 + 1 + 1⟩ : Parser) :=
    lineend_mk inp _
      (drop_eq_of_append inp (82 :: 9 :: (ds1 ++ 9 :: (ds2 ++ 9 :: [k]))) [10] _
        (by rw [hinp]; simp)
        (by simp only [List.length_cons, List.length_append, List.length_nil]; omega))
  have hR : (⟨inp, 0⟩ : Parser).parse_r =
      (.ok (.Retire (decVal ds1) (decVal ds2) kind),
        ⟨inp, 2 + ds1.length + 1 + ds2.length + 1 + 1 + 1⟩) := by
    unfold Parser.parse_r
    simp only [e0, e1, e2, e3, e4, e5, e6, htf, e7, e8]
  rw [next_some_eq _ 82 hc, if_neg (by norm_num), if_neg (by norm_num),
    if_neg (by norm_num), if_neg (by norm_num), if_neg (by norm_num),
    if_neg (by norm_num), if_pos rfl, hR]
  rw [show 2 + ds1.length + 1 + ds2.length + 1 + 1 + 1 =
    ds1.length + ds2.length + 6 from by omega]

/-- Pull of a well-formed dependency record: ids and kind decode to the
    literal values and the whole record is consumed. -/
theorem dep_run (ds1 ds2 : List Nat) (k : Nat) (kind : DepKind)
    (hne1 : ds1 ≠ []) (hds1 : ∀ b ∈ ds1, isDigit b = true)
    (hval1 : decVal ds1 ≤ 2 ^ 32 - 1)
    (hne2 : ds2 ≠ []) (hds2 : ∀ b ∈ ds2, isDigit b = true)
    (hval2 : decVal ds2 ≤ 2 ^ 32 - 1)
    (htf : DepKind.tryFrom k = .ok kind) :
    Parser.next ⟨87 :: 9 :: (ds1 ++ (9 :: (ds2 ++ (9 :: k :: [10])))), 0⟩ =
      some ((0, .ok (.Dep (decVal ds1) (decVal ds2) kind)),
        ⟨87 :: 9 :: (ds1 ++ (9 :: (ds2 ++ (9 :: k :: [10])))),
          ds1.length + ds2.length + 6⟩) := by
  set inp := 87 :: 9 :: (ds1 ++ (9 :: (ds2 ++ (9 :: k :: [10])))) with hinp
  have hc : (⟨inp, 0⟩ : Parser).current = some 87 := by
    rw [current_mk, hinp]
    rfl
  have e0 : (⟨inp, 0⟩ : Parser).bump = (⟨inp, 1⟩ : Parser) := rfl
  have e1 : (⟨inp, 1⟩ : Parser).tab = (.ok (), ⟨inp, 2⟩) :=
    tab_mk inp 1 _ (by rw [hinp]; rfl)
  have e2 : (⟨inp, 2⟩ : Parser).parse_u32 =
      (.ok (decVal ds1), ⟨inp, 2 + ds1.length⟩) :=
    parse_u32_mk inp 2 ds1 (9 :: (ds2 ++ (9 :: k :: [10])))
      (by rw [hinp]; rfl) hne1 hds1 (by rfl) hval1
  have e3 : (⟨inp, 2 + ds1.length⟩ : Parser).tab =
      (.ok (), ⟨inp, 2 + ds1.length + 1⟩) :=
    tab_mk inp _ (ds2 ++ (9 :: k :: [10]))
      (drop_eq_of_append inp (87 :: 9 :: ds1) _ _ (by rw [hinp]; simp)
        (by simp only [List.length_cons]; omega))
  have e4 : (⟨inp, 2 + ds1.length + 1⟩ : Parser).parse_u32 =
      (.ok (decVal ds2), ⟨inp, 2 + ds1.length + 1 + ds2.length⟩) :=
    parse_u32_mk inp _ ds2 (9 :: k :: [10])
      (drop_eq_of_append inp (87 :: 9 :: (ds1 ++ [9])) _ _ (by rw [hinp]; simp)
        (by simp only [List.length_cons, List.length_append, List.length_nil]; omega))
      hne2 hds2 (by rfl) hval2
  have e5 : (⟨inp, 2 + ds1.length + 1 + ds2.length⟩ : Parser).tab =
      (.ok (), ⟨inp, 2 + ds1.length + 1 + ds2.length + 1⟩) :=
    tab_mk inp _ (k :: [10])
      (drop_eq_of_append inp (87 :: 9 :: (ds1 ++ 9 :: ds2)) _ _
        (by rw [hinp]; simp)
        (by simp only [List.length_cons, List.length_append]; omega))
  have e6 : (⟨inp, 2 + ds1.length + 1 + ds2.length + 1⟩ : Parser).single_digit =
      (.ok k, ⟨inp, 2 + ds1.length + 1 + ds2.length + 1 + 1⟩) :=
    single_digit_mk inp _ k [10]
      (drop_eq_of_append inp (87 :: 9 :: (ds1 ++ 9 :: (ds2 ++ [9]))) _ _
        (by rw [hinp]; simp)
        (by simp only [List.length_cons, List.length_append, List.length_nil]; omega))
      (depKind_tryFrom_ok_digit k kind htf)
  have e7 : (⟨inp, 2 + ds1.length + 1 + ds2.length + 1 + 1⟩ : Parser).spaces =
      (⟨inp, 2 + ds1.length + 1 + ds2.length + 1 + 1⟩ : Parser) :=
    spaces_mk inp _ 10 []
      (drop_eq_of_append inp (87 :: 9 :: (ds1 ++ 9 :: (ds2 ++ 9 :: [k]))) [10] _
        (by rw [hinp]; simp)
        (by simp only [List.length_cons, List.length_append, List.length_nil]; omega))
      (by norm_num)
  have e8 : (⟨inp, 2 + ds1.length + 1 + ds2.length + 1 + 1⟩ : Parser).lineend =
      (⟨inp, 2 + ds1.length + 1 + ds2.length + 1 + 1 + 1⟩ : Parser) :=
    lineend_mk inp _
      (drop_eq_of_append inp (87 :: 9 :: (ds1 ++ 9 :: (ds2 ++ 9 :: [k]))) [10] _
        (by rw [hinp]; simp)
        (by simp only [List.length_cons, List.length_append, List.length_nil]; omega))
  have hW : (⟨inp, 0⟩ : Parser).parse_w =
      (.ok (.Dep (decVal ds1) (decVal ds2) kind),
        ⟨inp, 2 + ds1.length + 1 + ds2.length + 1 + 1 + 1⟩) := by
    unfold Parser.parse_w
    simp only [e0, e1, e2, e3, e4, e5, e6, htf, e7, e8]
  rw [next_some_eq _ 87 hc, if_neg (by norm_num), if_neg (by norm_num),
    if_neg (by norm_num), if_neg (by norm_num), if_neg (by norm_num),
    if_neg (by norm_num), if_neg (by norm_num), if_pos rfl, hW]
  rw [show 2 + ds1.length + 1 + ds2.length + 1 + 1 + 1 =
    ds1.length + ds2.length + 6 from by omega]

/-- Pull of a well-formed relative cycle record (no = marker): the signed
    value with optional leading sign decodes exactly when its magnitude is at
    most 2^31 - 1. -/
theorem cycle_rel_run (sgn ds : List Nat)
    (hsgn : sgn = [] ∨ sgn = [43] ∨ sgn = [45])
    (hne : ds ≠ []) (hds : ∀ b ∈ ds, isDigit b = true)
    (hval : decVal ds ≤ 2 ^ 31 - 1) :
    Parser.next ⟨67 :: 9 :: (sgn ++ (ds ++ [10])), 0⟩ =
      some ((0, .ok (.Cycle false
          (if sgn = [45] then -((decVal ds : Nat) : Int)
           else ((decVal ds : Nat) : Int)))),
        ⟨67 :: 9 :: (sgn ++ (ds ++ [10])), sgn.length + ds.length + 3⟩) := by
  rcases hsgn with rfl | rfl | rfl
  · rw [if_neg (show ¬(([] : List Nat) = [45]) from by decide)]
    simp only [List.nil_append, List.cons_append, List.singleton_append]
    set inp := 67 :: 9 :: (ds ++ [10]) with hinp
    have hc : (⟨inp, 0⟩ : Parser).current = some 67 := by
      rw [current_mk, hinp]
      rfl
    have e0 : (⟨inp, 0⟩ : Parser).bump = (⟨inp, 1⟩ : Parser) := rfl
    have ee : (⟨inp, 1⟩ : Parser).eat 61 = (false, ⟨inp, 1⟩) :=
      eat_miss_mk inp 1 61 9 _ (by rw [hinp]; rfl) (by norm_num)
    have e1 : (⟨inp, 1⟩ : Parser).tab = (.ok (), ⟨inp, 2⟩) :=
      tab_mk inp 1 _ (by rw [hinp]; rfl)
    have e2 : (⟨inp, 2⟩ : Parser).parse_i32 =
        (.ok ((decVal ds : Nat) : Int), ⟨inp, 2 + ds.length⟩) :=
      parse_i32_mk_nosign inp 2 ds [10] (by rw [hinp]; rfl) hne hds (by rfl) hval
    have e3 : (⟨inp, 2 + ds.length⟩ : Parser).spaces = (⟨inp, 2 + ds.length⟩ : Parser) :=
      spaces_mk inp _ 10 []
        (drop_eq_of_append inp (67 :: 9 :: ds) [10] _ (by rw [hinp]; simp)
          (by simp only [List.length_cons, List.length_append, List.length_nil]; omega))
        (by norm_num)
    have e4 : (⟨inp, 2 + ds.length⟩ : Parser).lineend = (⟨inp, 2 + ds.length + 1⟩ : Parser) :=
      lineend_mk inp _
        (drop_eq_of_append inp (67 :: 9 :: ds) [10] _ (by rw [hinp]; simp)
          (by simp only [List.length_cons, List.length_append, List.length_nil]; omega))
    have hC : (⟨inp, 0⟩ : Parser).parse_c =
        (.ok (.Cycle false ((decVal ds : Nat) : Int)), ⟨inp, 2 + ds.length + 1⟩) := by
      unfold Parser.parse_c
      simp only [e0, ee, e1, e2, e3, e4]
    rw [next_some_eq _ 67 hc, if_neg (by norm_num), if_pos rfl, hC]
    simp only [Option.some.injEq, Prod.mk.injEq, Parser.mk.injEq, true_and,
      and_true, List.length_cons, List.length_nil]
    omega
  · rw [if_neg (show ¬(([43] : List Nat) = [45]) from by decide)]
    simp only [List.nil_append, List.cons_append, List.singleton_append]
    set inp := 67 :: 9 :: (43 :: (ds ++ [10])) with hinp
    have hc : (⟨inp, 0⟩ : Parser).current = some 67 := by
      rw [current_mk, hinp]
      rfl
    have e0 : (⟨inp, 0⟩ : Parser).bump = (⟨inp, 1⟩ : Parser) := rfl
    have ee : (⟨inp, 1⟩ : Parser).eat 61 = (false, ⟨inp, 1⟩) :=
      eat_miss_mk inp 1 61 9 _ (by rw [hinp]; rfl) (by norm_num)
    have e1 : (⟨inp, 1⟩ : Parser).tab = (.ok (), ⟨inp, 2⟩) :=
      tab_mk inp 1 _ (by rw [hinp]; rfl)
    have e2 : (⟨inp, 2⟩ : Parser).parse_i32 =
        (.ok ((decVal ds : Nat) : Int), ⟨inp, 2 + 1 + ds.length⟩) :=
      parse_i32_mk_plus inp 2 ds [10] (by rw [hinp]; rfl) hne hds (by rfl) hval
    have e3 : (⟨inp, 2 + 1 + ds.length⟩ : Parser).spaces = (⟨inp, 2 + 1 + ds.length⟩ : Parser) :=
      spaces_mk inp _ 10 []
        (drop_eq_of_append inp (67 :: 9 :: 43 :: ds) [10] _ (by rw [hinp]; simp)
          (by simp only [List.length_cons, List.length_append, List.length_nil]; omega))
        (by norm_num)
    have e4 : (⟨inp, 2 + 1 + ds.length⟩ : Parser).lineend = (⟨inp, 2 + 1 + ds.length + 1⟩ : Parser) :=
      lineend_mk inp _
        (drop_eq_of_append inp (67 :: 9 :: 43 :: ds) [10] _ (by rw [hinp]; simp)
          (by simp only [List.length_cons, List.length_append, List.length_nil]; omega))
    have hC : (⟨inp, 0⟩ : Parser).parse_c =
        (.ok (.Cycle false ((decVal ds : Nat) : Int)), ⟨inp, 2 + 1 + ds.length + 1⟩) := by
      unfold Parser.parse_c
      simp only [e0, ee, e1, e2, e3, e4]
    rw [next_some_eq _ 67 hc, if_neg (by norm_num), if_pos rfl, hC]
    simp only [Option.some.injEq, Prod.mk.injEq, Parser.mk.injEq, true_and,
      and_true, List.length_cons, List.length_nil]
    omega
  · rw [if_pos rfl]
    simp only [List.nil_append, List.cons_append, List.singleton_append]
    set inp := 67 :: 9 :: (45 :: (ds ++ [10])) with hinp
    have hc : (⟨inp, 0⟩ : Parser).current = some 67 := by
      rw [current_mk, hinp]
      rfl
    have e0 : (⟨inp, 0⟩ : Parser).bump = (⟨inp, 1⟩ : Parser) := rfl
    have ee : (⟨inp, 1⟩ : Parser).eat 61 = (false, ⟨inp, 1⟩) :=
      eat_miss_mk inp 1 61 9 _ (by rw [hinp]; rfl) (by norm_num)
    have e1 : (⟨inp, 1⟩ : Parser).tab = (.ok (), ⟨inp, 2⟩) :=
      tab_mk inp 1 _ (by rw [hinp]; rfl)
    have e2 : (⟨inp, 2⟩ : Parser).parse_i32 =
        (.ok (-((decVal ds : Nat) : Int)), ⟨inp, 2 + 1 + ds.length⟩) :=
      parse_i32_mk_minus inp 2 ds [10] (by rw [hinp]; rfl) hne hds (by rfl) hval
    have e3 : (⟨inp, 2 + 1 + ds.length⟩ : Parser).spaces = (⟨inp, 2 + 1 + ds.length⟩ : Parser) :=
      spaces_mk inp _ 10 []
        (drop_eq_of_append inp (67 :: 9 :: 45 :: ds) [10] _ (by rw [hinp]; simp)
          (by simp only [List.length_cons, List.length_append, List.length_nil]; omega))
        (by norm_num)
    have e4 : (⟨inp, 2 + 1 + ds.length⟩ : Parser).lineend = (⟨inp, 2 + 1 + ds.length + 1⟩ : Parser) :=
      lineend_mk inp _
        (drop_eq_of_append inp (67 :: 9 :: 45 :: ds) [10] _ (by rw [hinp]; simp)
          (by simp only [List.length_cons, List.length_append, List.length_nil]; omega))
    have hC : (⟨inp, 0⟩ : Parser).parse_c =
        (.ok (.Cycle false (-((decVal ds : Nat) : Int))), ⟨inp, 2 + 1 + ds.length + 1⟩) := by
      unfold Parser.parse_c
      simp only [e0, ee, e1, e2, e3, e4]
    rw [next_some_eq _ 67 hc, if_neg (by norm_num), if_pos rfl, hC]
    simp only [Option.some.injEq, Prod.mk.injEq, Parser.mk.injEq, true_and,
      and_true, List.length_cons, List.length_nil]
    omega

/-- Pull of a well-formed absolute cycle record (with the = marker): the
    signed value with optional leading sign decodes exactly when its magnitude
    is at most 2^31 - 1. -/
theorem cycle_abs_run (sgn ds : List Nat)
    (hsgn : sgn = [] ∨ sgn = [43] ∨ sgn = [45])
    (hne : ds ≠ []) (hds : ∀ b ∈ ds, isDigit b = true)
    (hval : decVal ds ≤ 2 ^ 31 - 1) :
    Parser.next ⟨67 :: 61 :: 9 :: (sgn ++ (ds ++ [10])), 0⟩ =
      some ((0, .ok (.Cycle true
          (if sgn = [45] then -((decVal ds : Nat) : Int)
           else ((decVal ds : Nat) : Int)))),
        ⟨67 :: 61 :: 9 :: (sgn ++ (ds ++ [10])), sgn.length + ds.length + 4⟩) := by
  rcases hsgn with rfl | rfl | rfl
  · rw [if_neg (show ¬(([] : List Nat) = [45]) from by decide)]
    simp only [List.nil_append, List.cons_append, List.singleton_append]
    set inp := 67 :: 61 :: 9 :: (ds ++ [10]) with hinp
    have hc : (⟨inp, 0⟩ : Parser).current = some 67 := by
      rw [current_mk, hinp]
      rfl
    have e0 : (⟨inp, 0⟩ : Parser).bump = (⟨inp, 1⟩ : Parser) := rfl
    have ee : (⟨inp, 1⟩ : Parser).eat 61 = (true, ⟨inp, 2⟩) :=
      eat_hit_mk inp 1 61 _ (by rw [hinp]; rfl)
    have e1 : (⟨inp, 2⟩ : Parser).tab = (.ok (), ⟨inp, 3⟩) :=
      tab_mk inp 2 _ (by rw [hinp]; rfl)
    have e2 : (⟨inp, 3⟩ : Parser).parse_i32 =
        (.ok ((decVal ds : Nat) : Int), ⟨inp, 3 + ds.length⟩) :=
      parse_i32_mk_nosign inp 3 ds [10] (by rw [hinp]; rfl) hne hds (by rfl) hval
    have e3 : (⟨inp, 3 + ds.length⟩ : Parser).spaces = (⟨inp, 3 + ds.length⟩ : Parser) :=
      spaces_mk inp _ 10 []
        (drop_eq_of_append inp (67 :: 61 :: 9 :: ds) [10] _ (by rw [hinp]; simp)
          (by simp only [List.length_cons, List.length_append, List.length_nil]; omega))
        (by norm_num)
    have e4 : (⟨inp, 3 + ds.length⟩ : Parser).lineend = (⟨inp, 3 + ds.length + 1⟩ : Parser) :=
      lineend_mk inp _
        (drop_eq_of_append inp (67 :: 61 :: 9 :: ds) [10] _ (by rw [hinp]; simp)
          (by simp only [List.length_cons, List.length_append, List.length_nil]; omega))
    have hC : (⟨inp, 0⟩ : Parser).parse_c =
        (.ok (.Cycle true ((decVal ds : Nat) : Int)), ⟨inp, 3 + ds.length + 1⟩) := by
      unfold Parser.parse_c
      simp only [e0, ee, e1, e2, e3, e4]
    rw [next_some_eq _ 67 hc, if_neg (by norm_num), if_pos rfl, hC]
    simp only [Option.some.injEq, Prod.mk.injEq, Parser.mk.injEq, true_and,
      and_true, List.length_cons, List.length_nil]
    omega
  · rw [if_neg (show ¬(([43] : List Nat) = [45]) from by decide)]
    simp only [List.nil_append, List.cons_append, List.singleton_append]
    set inp := 67 :: 61 :: 9 :: (43 :: (ds ++ [10])) with hinp
    have hc : (⟨inp, 0⟩ : Parser).current = some 67 := by
      rw [current_mk, hinp]
      rfl
    have e0 : (⟨inp, 0⟩ : Parser).bump = (⟨inp, 1⟩ : Parser) := rfl
    have ee : (⟨inp, 1⟩ : Parser).eat 61 = (true, ⟨inp, 2⟩) :=
      eat_hit_mk inp 1 61 _ (by rw [hinp]; rfl)
    have e1 : (⟨inp, 2⟩ : Parser).tab = (.ok (), ⟨inp, 3⟩) :=
      tab_mk inp 2 _ (by rw [hinp]; rfl)
    have e2 : (⟨inp, 3⟩ : Parser).parse_i32 =
        (.ok ((decVal ds : Nat) : Int), ⟨inp, 3 + 1 + ds.length⟩) :=
      parse_i32_mk_plus inp 3 ds [10] (by rw [hinp]; rfl) hne hds (by rfl) hval
    have e3 : (⟨inp, 3 + 1 + ds.length⟩ : Parser).spaces = (⟨inp, 3 + 1 + ds.length⟩ : Parser) :=
      spaces_mk inp _ 10 []
        (drop_eq_of_append inp (67 :: 61 :: 9 :: 43 :: ds) [10] _ (by rw [hinp]; simp)
          (by simp only [List.length_cons, List.length_append, List.length_nil]; omega))
        (by norm_num)
    have e4 : (⟨inp, 3 + 1 + ds.length⟩ : Parser).lineend = (⟨inp, 3 + 1 + ds.length + 1⟩ : Parser) :=
      lineend_mk inp _
        (drop_eq_of_append inp (67 :: 61 :: 9 :: 43 :: ds) [10] _ (by rw [hinp]; simp)
          (by simp only [List.length_cons, List.length_append, List.length_nil]; omega))
    have hC : (⟨inp, 0⟩ : Parser).parse_c =
        (.ok (.Cycle true ((decVal ds : Nat) : Int)), ⟨inp, 3 + 1 + ds.length + 1⟩) := by
      unfold Parser.parse_c
      simp only [e0, ee, e1, e2, e3, e4]
    rw [next_some_eq _ 67 hc, if_neg (by norm_num), if_pos rfl, hC]
    simp only [Option.some.injEq, Prod.mk.injEq, Parser.mk.injEq, true_and,
      and_true, List.length_cons, List.length_nil]
    omega
  · rw [if_pos rfl]
    simp only [List.nil_append, List.cons_append, List.singleton_append]
    set inp := 67 :: 61 :: 9 :: (45 :: (ds ++ [10])) with hinp
    have hc : (⟨inp, 0⟩ : Parser).current = some 67 := by
      rw [current_mk, hinp]
      rfl
    have e0 : (⟨inp, 0⟩ : Parser).bump = (⟨inp, 1⟩ : Parser) := rfl
    have ee : (⟨inp, 1⟩ : Parser).eat 61 = (true, ⟨inp, 2⟩) :=
      eat_hit_mk inp 1 61 _ (by rw [hinp]; rfl)
    have e1 : (⟨inp, 2⟩ : Parser).tab = (.ok (), ⟨inp, 3⟩) :=
      tab_mk inp 2 _ (by rw [hinp]; rfl)
    have e2 : (⟨inp, 3⟩ : Parser).parse_i32 =
        (.ok (-((decVal ds : Nat) : Int)), ⟨inp, 3 + 1 + ds.length⟩) :=
      parse_i32_mk_minus inp 3 ds [10] (by rw [hinp]; rfl) hne hds (by rfl) hval
    have e3 : (⟨inp, 3 + 1 + ds.length⟩ : Parser).spaces = (⟨inp, 3 + 1 + ds.length⟩ : Parser) :=
      spaces_mk inp _ 10 []
        (drop_eq_of_append inp (67 :: 61 :: 9 :: 45 :: ds) [10] _ (by rw [hinp]; simp)
          (by simp only [List.length_cons, List.length_append, List.length_nil]; omega))
        (by norm_num)
    have e4 : (⟨inp, 3 + 1 + ds.length⟩ : Parser).lineend = (⟨inp, 3 + 1 + ds.length + 1⟩ : Parser) :=
      lineend_mk inp _
        (drop_eq_of_append inp (67 :: 61 :: 9 :: 45 :: ds) [10] _ (by rw [hinp]; simp)
          (by simp only [List.length_cons, List.length_append, List.length_nil]; omega))
    have hC : (⟨inp, 0⟩ : Parser).parse_c =
        (.ok (.Cycle true (-((decVal ds : Nat) : Int))), ⟨inp, 3 + 1 + ds.length + 1⟩) := by
      unfold Parser.parse_c
      simp only [e0, ee, e1, e2, e3, e4]
    rw [next_some_eq _ 67 hc, if_neg (by norm_num), if_pos rfl, hC]
    simp only [Option.some.injEq, Prod.mk.injEq, Parser.mk.injEq, true_and,
      and_true, List.length_cons, List.length_nil]
    omega

end Lemmas

section Claims

/-- C1: the claim says every pull makes forward progress, the iterator cannot
    loop forever on malformed input, and the number of yielded pairs is bounded
    by the buffer length.  The code refutes this: parse_header fails on a
    mismatching literal before consuming anything, so on the one-byte buffer
    "K" every pull yields the same (0, InvalidHeader) pair with the cursor
    stuck at 0, and the sequence yields n pairs for every n, unbounded. -/
theorem claim_C1_nonterminating :
    Parser.next (Parser.new [75]) =
        some ((0, .error ⟨0, .InvalidHeader⟩), Parser.new [75]) ∧
      ∀ n, (Parser.pulls (Parser.new [75]) n).length = n := by
  have hstep : Parser.next (Parser.new [75]) =
      some ((0, .error ⟨0, .InvalidHeader⟩), Parser.new [75]) := by decide
  refine ⟨hstep, ?_⟩
  intro n
  induction n with
  | zero => rfl
  | succ n ih => simp [Parser.pulls, hstep, ih]

/-- C2 counterexample: on the record "L\x0910\x09X\x09hello\x0a" the code
    yields ExpectedValue at offset 5 (the offset of the byte X), not
    InvalidLogKind as the claim states: single_digit rejects the non-digit
    byte before LogKind::try_from is ever reached. -/
theorem claim_C2_counterexample :
    (Parser.new lRecX).next =
        some ((0, .error ⟨5, .ExpectedValue⟩), ⟨lRecX, 5⟩) ∧
      lRecX.get? 5 = some 88 ∧
      ParseErrorKind.ExpectedValue ≠ ParseErrorKind.InvalidLogKind := by decide

/-- C2 amended: parsing the record "L\x0910\x09X\x09hello\x0a" yields a
    ParseError with kind ExpectedValue whose offset is the offset of the
    byte X. -/
theorem claim_C2_expectedvalue :
    (Parser.new lRecX).next =
        some ((0, .error ⟨5, .ExpectedValue⟩), ⟨lRecX, 5⟩) ∧
      lRecX.get? 5 = some 88 := by decide

/-- C6 counterexample: on a buffer beginning with LF LF, lineend consumes both
    LF bytes (ending at offset 2), not only the first one (offset 1): the
    first branch of the code accepts CR or LF alike, and the second byte is an
    LF, so the optional trailing-LF branch fires as well. -/
theorem claim_C6_counterexample :
    Parser.lineend ⟨[10, 10], 0⟩ = ⟨[10, 10], 2⟩ ∧
      (⟨[10, 10], 2⟩ : Parser) ≠ ⟨[10, 10], 1⟩ := by decide

/-- C6 amended: at every position, skip_line_end consumes one byte if it is CR
    or LF, and one further byte after it if that byte is LF; so it tolerates
    bare CR, bare LF, CRLF and end of buffer, but on input beginning with
    LF LF it consumes both LF bytes. -/
theorem claim_C6_lineend_shape (p : Parser) :
    Parser.lineend p = p.advance (lineendCount p.rest) :=
  lineend_shape p

/-- C10: packing an offset below 2^48 and a 16-bit length into a StrRef and
    reading them back through the accessors returns them unchanged. -/
theorem claim_C10_strref_roundtrip (o l : Nat) (ho : o < 2 ^ 48) (hl : l < 2 ^ 16) :
    (StrRef.new o l).offset = o ∧ (StrRef.new o l).len = l :=
  strRef_accessors o l ho hl

/-- Witness for C10 at offset 3 and length 7. -/
theorem claim_C10_strref_roundtrip_witness :
    (3 : Nat) < 2 ^ 48 ∧ (7 : Nat) < 2 ^ 16 ∧
      (StrRef.new 3 7).offset = 3 ∧ (StrRef.new 3 7).len = 7 :=
  ⟨by norm_num, by norm_num, claim_C10_strref_roundtrip 3 7 (by norm_num) (by norm_num)⟩

/-- C5: in this embedding every pull is a total function on arbitrary byte
    buffers (truncated, garbage or empty), so it always terminates with either
    no item or one (offset, result) pair; in the pair, the record offset and
    any error offset are at most the buffer length, and the new cursor stays
    in bounds. -/
theorem claim_C5_no_panic (p : Parser) (hp : p.pos ≤ p.input.length) :
    p.next = none ∨
      ∃ off r q, p.next = some ((off, r), q) ∧ off ≤ p.input.length ∧
        q.pos ≤ q.input.length ∧
        ∀ e, r = .error e → e.offset ≤ p.input.length := by
  match hn : p.next with
  | none => exact Or.inl rfl
  | some ((off, r), q) =>
    right
    obtain ⟨hoff, hprog, herr⟩ := next_inv p off r q hn
    refine ⟨off, r, q, rfl, by omega, ?_, fun e he => herr e he hp⟩
    rw [hprog.1]
    exact hprog.2.2 hp

/-- Witness for C5 on the truncated one-byte record "C". -/
theorem claim_C5_no_panic_witness :
    (Parser.new [67]).next = none ∨
      ∃ off r q, (Parser.new [67]).next = some ((off, r), q) ∧ off ≤ 1 ∧
        q.pos ≤ q.input.length ∧
        ∀ e, r = .error e → e.offset ≤ 1 :=
  claim_C5_no_panic (Parser.new [67]) (by decide)

/-- C9: the cursor is 0 at construction; every primitive and every grammar
    rule leaves the cursor non-decreasing (the grammar rules are dispatched
    only with a byte available, hence the in-bounds hypothesis on them); and
    after every pull the cursor remains bounded by the buffer length. -/
theorem claim_C9_cursor_invariants (input : List Nat) (p : Parser) :
    (Parser.new input).pos = 0 ∧
      p.pos ≤ p.spaces.pos ∧
      p.pos ≤ p.lineend.pos ∧
      (∀ b, p.pos ≤ (p.expect b).2.pos) ∧
      (∀ b, p.pos ≤ (p.eat b).2.pos) ∧
      p.pos ≤ p.tab.2.pos ∧
      p.pos ≤ p.single_digit.2.pos ∧
      p.pos ≤ p.parse_u64.2.pos ∧
      p.pos ≤ p.parse_i32.2.pos ∧
      p.pos ≤ p.parse_u32.2.pos ∧
      p.pos ≤ p.text.2.pos ∧
      p.pos ≤ p.parse_header.2.pos ∧
      (p.pos < p.input.length →
        p.pos ≤ p.parse_c.2.pos ∧ p.pos ≤ p.parse_i.2.pos ∧
          p.pos ≤ p.parse_l.2.pos ∧ (∀ s, p.pos ≤ (p.parse_pipeline s).2.pos) ∧
          p.pos ≤ p.parse_r.2.pos ∧ p.pos ≤ p.parse_w.2.pos) ∧
      (p.pos ≤ p.input.length →
        ∀ off r q, p.next = some ((off, r), q) → q.pos ≤ p.input.length) := by
  refine ⟨rfl, (spaces_progress p).2.1, (lineend_progress p).2.1,
    fun b => (expect_inv p b).1.2.1, fun b => (eat_progress p b).2.1,
    (tab_inv p).1.2.1, (single_digit_inv p).1.2.1, (parse_u64_inv p).1.2.1,
    (parse_i32_inv p).1.2.1, (parse_u32_inv p).1.2.1, (text_inv p).1.2.1,
    (parse_header_inv p).1.2.1,
    fun hp => ⟨(parse_c_inv p hp).1.2.1, (parse_i_inv p hp).1.2.1,
      (parse_l_inv p hp).1.2.1, fun s => (parse_pipeline_inv p s hp).1.2.1,
      (parse_r_inv p hp).1.2.1, (parse_w_inv p hp).1.2.1⟩, ?_⟩
  intro hp off r q h
  obtain ⟨_, hprog, _⟩ := next_inv p off r q h
  exact hprog.2.2 hp

/-- Witness for C9: construction at buffer "K", and a grammar rule (parse_l on
    the one-byte buffer "L") leaving the cursor non-decreasing. -/
theorem claim_C9_cursor_invariants_witness :
    (Parser.new [75]).pos = 0 ∧
      (⟨[76], 0⟩ : Parser).pos < (⟨[76], 0⟩ : Parser).input.length ∧
      (⟨[76], 0⟩ : Parser).pos ≤ (⟨[76], 0⟩ : Parser).parse_l.2.pos := by
  obtain ⟨h0, hsp, hle, hex, heat, htab, hsd, hu64, hi32, hu32, htxt, hhdr,
    hrules, hnext⟩ := claim_C9_cursor_invariants [75] (⟨[76], 0⟩ : Parser)
  exact ⟨h0, by decide, (hrules (by decide)).2.2.1⟩

/-- Byte list of the record "C\x09-2147483648\x0a": a well-formed cycle record
    whose value is the least 32-bit signed integer. -/
def cycleMin : List Nat := [67, 9, 45, 50, 49, 52, 55, 52, 56, 51, 54, 52, 56, 10]

/-- C7 counterexample: the cycle record "C\x09-2147483648\x0a" carries the
    value -2147483648, which is representable in 32-bit signed range, yet the
    code answers ValueTooBig: parse_i32 narrows the magnitude through the
    unsigned 31-bit bound before applying the sign, so the minimum value is
    rejected. -/
theorem claim_C7_counterexample :
    Parser.next (Parser.new cycleMin) =
        some ((0, .error ⟨13, .ValueTooBig⟩), ⟨cycleMin, 13⟩) ∧
      -(2 ^ 31 : Int) ≤ -2147483648 ∧ (-2147483648 : Int) ≤ 2 ^ 31 - 1 :=
  ⟨by decide, by norm_num, by norm_num⟩

/-- C7 amended: for every well-formed record of each of the eight kinds the
    decoded Command fields equal the literal values written in the input, and
    numeric fields round-trip exactly; a cycle record with optional leading
    plus or minus sign decodes exactly whenever its magnitude is at most
    2^31 - 1 (the code rejects -2^31 itself with ValueTooBig).  Text fields
    are reported as the packed span starting right after the text-field tab
    with the literal text length, and extracting that span from the buffer
    returns the text bytes. -/
theorem claim_C7_roundtrip :
    (∀ ds, ds ≠ [] → (∀ b ∈ ds, isDigit b = true) → decVal ds ≤ 2 ^ 32 - 1 →
      Parser.next ⟨75 :: 97 :: 110 :: 97 :: 116 :: 97 :: 9 :: (ds ++ [10]), 0⟩ =
        some ((0, .ok (.Kanata (decVal ds))),
          ⟨75 :: 97 :: 110 :: 97 :: 116 :: 97 :: 9 :: (ds ++ [10]),
            ds.length + 8⟩)) ∧
    (∀ sgn ds, (sgn = [] ∨ sgn = [43] ∨ sgn = [45]) → ds ≠ [] →
      (∀ b ∈ ds, isDigit b = true) → decVal ds ≤ 2 ^ 31 - 1 →
      Parser.next ⟨67 :: 9 :: (sgn ++ (ds ++ [10])), 0⟩ =
        some ((0, .ok (.Cycle false
            (if sgn = [45] then -((decVal ds : Nat) : Int)
             else ((decVal ds : Nat) : Int)))),
          ⟨67 :: 9 :: (sgn ++ (ds ++ [10])), sgn.length + ds.length + 3⟩) ∧
      Parser.next ⟨67 :: 61 :: 9 :: (sgn ++ (ds ++ [10])), 0⟩ =
        some ((0, .ok (.Cycle true
            (if sgn = [45] then -((decVal ds : Nat) : Int)
             else ((decVal ds : Nat) : Int)))),
          ⟨67 :: 61 :: 9 :: (sgn ++ (ds ++ [10])), sgn.length + ds.length + 4⟩)) ∧
    (∀ ds1 ds2 ds3, ds1 ≠ [] → (∀ b ∈ ds1, isDigit b = true) →
      decVal ds1 ≤ 2 ^ 32 - 1 → ds2 ≠ [] → (∀ b ∈ ds2, isDigit b = true) →
      decVal ds2 ≤ 2 ^ 32 - 1 → ds3 ≠ [] → (∀ b ∈ ds3, isDigit b = true) →
      decVal ds3 ≤ 2 ^ 32 - 1 →
      Parser.next ⟨73 :: 9 :: (ds1 ++ (9 :: (ds2 ++ (9 :: (ds3 ++ [10]))))), 0⟩ =
        some ((0, .ok (.Instruction (decVal ds1) (decVal ds2) (decVal ds3))),
          ⟨73 :: 9 :: (ds1 ++ (9 :: (ds2 ++ (9 :: (ds3 ++ [10]))))),
            ds1.length + ds2.length + ds3.length + 5⟩)) ∧
    (∀ ds ts k kind, ds ≠ [] → (∀ b ∈ ds, isDigit b = true) →
      decVal ds ≤ 2 ^ 32 - 1 → LogKind.tryFrom k = .ok kind → ts ≠ [] →
      (∀ b ∈ ts, b ≠ 13 ∧ b ≠ 10) →
      Parser.next ⟨76 :: 9 :: (ds ++ (9 :: k :: 9 :: (ts ++ [10]))), 0⟩ =
        some ((0, .ok (.Log (decVal ds) kind
            (StrRef.new (ds.length + 5) ts.length))),
          ⟨76 :: 9 :: (ds ++ (9 :: k :: 9 :: (ts ++ [10]))),
            ds.length + 5 + ts.length + 1⟩) ∧
      ((76 :: 9 :: (ds ++ (9 :: k :: 9 :: (ts ++ [10])))).drop
          (ds.length + 5)).take ts.length = ts) ∧
    (∀ tag start, ((tag = 83 ∧ start = true) ∨ (tag = 69 ∧ start = false)) →
      ∀ ds1 ds2 ts, ds1 ≠ [] → (∀ b ∈ ds1, isDigit b = true) →
      decVal ds1 ≤ 2 ^ 32 - 1 → ds2 ≠ [] → (∀ b ∈ ds2, isDigit b = true) →
      decVal ds2 ≤ 2 ^ 32 - 1 → ts ≠ [] → (∀ b ∈ ts, b ≠ 13 ∧ b ≠ 10) →
      Parser.next ⟨tag :: 9 :: (ds1 ++ (9 :: (ds2 ++ (9 :: (ts ++ [10]))))), 0⟩ =
        some ((0, .ok (.Pipeline start (decVal ds1) (decVal ds2)
            (StrRef.new (ds1.length + ds2.length + 4) ts.length))),
          ⟨tag :: 9 :: (ds1 ++ (9 :: (ds2 ++ (9 :: (ts ++ [10]))))),
            ds1.length + ds2.length + 4 + ts.length + 1⟩) ∧
      ((tag :: 9 :: (ds1 ++ (9 :: (ds2 ++ (9 :: (ts ++ [10])))))).drop
          (ds1.length + ds2.length + 4)).take ts.length = ts) ∧
    (∀ ds1 ds2 k kind, ds1 ≠ [] → (∀ b ∈ ds1, isDigit b = true) →
      decVal ds1 ≤ 2 ^ 32 - 1 → ds2 ≠ [] → (∀ b ∈ ds2, isDigit b = true) →
      decVal ds2 ≤ 2 ^ 32 - 1 → RetireKind.tryFrom k = .ok kind →
      Parser.next ⟨82 :: 9 :: (ds1 ++ (9 :: (ds2 ++ (9 :: k :: [10])))), 0⟩ =
        some ((0, .ok (.Retire (decVal ds1) (decVal ds2) kind)),
          ⟨82 :: 9 :: (ds1 ++ (9 :: (ds2 ++ (9 :: k :: [10])))),
            ds1.length + ds2.length + 6⟩)) ∧
    (∀ ds1 ds2 k kind, ds1 ≠ [] → (∀ b ∈ ds1, isDigit b = true) →
      decVal ds1 ≤ 2 ^ 32 - 1 → ds2 ≠ [] → (∀ b ∈ ds2, isDigit b = true) →
      decVal ds2 ≤ 2 ^ 32 - 1 → DepKind.tryFrom k = .ok kind →
      Parser.next ⟨87 :: 9 :: (ds1 ++ (9 :: (ds2 ++ (9 :: k :: [10])))), 0⟩ =
        some ((0, .ok (.Dep (decVal ds1) (decVal ds2) kind)),
          ⟨87 :: 9 :: (ds1 ++ (9 :: (ds2 ++ (9 :: k :: [10])))),
            ds1.length + ds2.length + 6⟩)) := by
  refine ⟨header_run, ?_, instruction_run, ?_, ?_, retire_run, dep_run⟩
  · intro sgn ds h1 h2 h3 h4
    exact ⟨cycle_rel_run sgn ds h1 h2 h3 h4, cycle_abs_run sgn ds h1 h2 h3 h4⟩
  · intro ds ts k kind h1 h2 h3 h4 h5 h6
    refine ⟨log_run ds ts k kind h1 h2 h3 h4 h5 h6, ?_⟩
    rw [drop_eq_of_append _ (76 :: 9 :: (ds ++ 9 :: k :: [9])) (ts ++ [10]) _
      (by simp)
      (by simp only [List.length_cons, List.length_append, List.length_nil])]
    exact List.take_left ts [10]
  · intro tag start htag ds1 ds2 ts h1 h2 h3 h4 h5 h6 h7 h8
    refine ⟨pipeline_run tag start htag ds1 ds2 ts h1 h2 h3 h4 h5 h6 h7 h8, ?_⟩
    rw [drop_eq_of_append _ (tag :: 9 :: (ds1 ++ 9 :: (ds2 ++ [9]))) (ts ++ [10]) _
      (by simp)
      (by
        simp only [List.length_cons, List.length_append, List.length_nil]
        omega)]
    exact List.take_left ts [10]

/-- Witness for C7: one concrete well-formed record of each kind, decoded to
    the literal field values. -/
theorem claim_C7_roundtrip_witness :
    Parser.next (Parser.new [75, 97, 110, 97, 116, 97, 9, 51, 10]) =
        some ((0, .ok (.Kanata 3)), ⟨[75, 97, 110, 97, 116, 97, 9, 51, 10], 9⟩) ∧
      Parser.next (Parser.new [67, 9, 45, 51, 10]) =
        some ((0, .ok (.Cycle false (-3))), ⟨[67, 9, 45, 51, 10], 5⟩) ∧
      Parser.next (Parser.new [67, 61, 9, 53, 10]) =
        some ((0, .ok (.Cycle true 5)), ⟨[67, 61, 9, 53, 10], 5⟩) ∧
      Parser.next (Parser.new [73, 9, 49, 9, 50, 9, 51, 10]) =
        some ((0, .ok (.Instruction 1 2 3)), ⟨[73, 9, 49, 9, 50, 9, 51, 10], 8⟩) ∧
      Parser.next (Parser.new [76, 9, 49, 48, 9, 49, 9, 104, 105, 10]) =
        some ((0, .ok (.Log 10 .MouseOver (StrRef.new 7 2))),
          ⟨[76, 9, 49, 48, 9, 49, 9, 104, 105, 10], 10⟩) ∧
      Parser.next (Parser.new [83, 9, 53, 9, 50, 9, 68, 101, 10]) =
        some ((0, .ok (.Pipeline true 5 2 (StrRef.new 6 2))),
          ⟨[83, 9, 53, 9, 50, 9, 68, 101, 10], 9⟩) ∧
      Parser.next (Parser.new [69, 9, 53, 9, 50, 9, 68, 101, 10]) =
        some ((0, .ok (.Pipeline false 5 2 (StrRef.new 6 2))),
          ⟨[69, 9, 53, 9, 50, 9, 68, 101, 10], 9⟩) ∧
      Parser.next (Parser.new [82, 9, 49, 9, 57, 9, 49, 10]) =
        some ((0, .ok (.Retire 1 9 .Flush)), ⟨[82, 9, 49, 9, 57, 9, 49, 10], 8⟩) ∧
      Parser.next (Parser.new [87, 9, 52, 9, 55, 9, 48, 10]) =
        some ((0, .ok (.Dep 4 7 .WakeUp)), ⟨[87, 9, 52, 9, 55, 9, 48, 10], 8⟩) := by
  obtain ⟨hK, hC, hI, hL, hP, hR, hW⟩ := claim_C7_roundtrip
  refine ⟨hK [51] (by decide) (by decide) (by decide),
    (hC [45] [51] (by decide) (by decide) (by decide) (by decide)).1,
    (hC [] [53] (by decide) (by decide) (by decide) (by decide)).2,
    hI [49] [50] [51] (by decide) (by decide) (by decide) (by decide) (by decide)
      (by decide) (by decide) (by decide) (by decide),
    (hL [49, 48] [104, 105] 49 .MouseOver (by decide) (by decide) (by decide)
      (by decide) (by decide) (by decide)).1,
    (hP 83 true (Or.inl ⟨rfl, rfl⟩) [53] [50] [68, 101] (by decide) (by decide)
      (by decide) (by decide) (by decide) (by decide) (by decide) (by decide)).1,
    (hP 69 false (Or.inr ⟨rfl, rfl⟩) [53] [50] [68, 101] (by decide) (by decide)
      (by decide) (by decide) (by decide) (by decide) (by decide) (by decide)).1,
    hR [49] [57] 49 .Flush (by decide) (by decide) (by decide) (by decide)
      (by decide) (by decide) (by decide),
    hW [52] [55] 48 .WakeUp (by decide) (by decide) (by decide) (by decide)
      (by decide) (by decide) (by decide)⟩

/-- The 20 digit bytes of 18446744073709551616 = 2^64. -/
def bigDigits : List Nat :=
  [49, 56, 52, 52, 54, 55, 52, 52, 48, 55, 51, 55, 48, 57, 53, 53, 49, 54, 49, 54]

/-- C4 counterexample: the digit run "18446744073709551616" has decimal
    magnitude 2^64, far beyond the 32-bit width, yet parse_u32 returns Ok 0
    instead of ValueTooBig: the u64 accumulator wraps modulo 2^64, so the
    overflow check sees 0. -/
theorem claim_C4_counterexample :
    decVal bigDigits = 2 ^ 64 ∧ 2 ^ 32 - 1 < decVal bigDigits ∧
      (⟨bigDigits, 0⟩ : Parser).parse_u32 = (.ok 0, ⟨bigDigits, 20⟩) := by
  refine ⟨by decide, by decide, by decide⟩

/-- C4 amended: at every position with no leading ASCII digit, parse_u64 (and
    parse_u32 above it) fails with ExpectedValue at that position; a consumed
    digit run is accumulated as a wrapping 64-bit magnitude, and whenever that
    64-bit accumulated magnitude exceeds the target width (32-bit unsigned for
    parse_u32, 31-bit magnitude for parse_i32 on an unsigned run), the result
    is ValueTooBig stamped after the run. -/
theorem claim_C4_decimal_errors :
    (∀ p : Parser, headNotDigit p.rest = true →
      p.parse_u64 = (.error ⟨p.pos, .ExpectedValue⟩, p) ∧
      p.parse_u32 = (.error ⟨p.pos, .ExpectedValue⟩, p)) ∧
    (∀ (inp : List Nat) (n : Nat) (ds B : List Nat), inp.drop n = ds ++ B →
      ds ≠ [] → (∀ b ∈ ds, isDigit b = true) → headNotDigit B = true →
      (⟨inp, n⟩ : Parser).parse_u64 =
        (.ok (accumVal 0 ds), ⟨inp, n + ds.length⟩) ∧
      (2 ^ 32 - 1 < accumVal 0 ds →
        (⟨inp, n⟩ : Parser).parse_u32 =
          (.error ⟨n + ds.length, .ValueTooBig⟩, ⟨inp, n + ds.length⟩)) ∧
      (2 ^ 31 - 1 < accumVal 0 ds →
        (⟨inp, n⟩ : Parser).parse_i32 =
          (.error ⟨n + ds.length, .ValueTooBig⟩, ⟨inp, n + ds.length⟩))) := by
  constructor
  · intro p h
    have hz : accumDigits 0 p.rest = (0, 0) := by
      cases hrest : p.rest with
      | nil => rfl
      | cons c cs =>
        rw [hrest] at h
        simp only [headNotDigit, Bool.not_eq_true'] at h
        simp [accumDigits, h]
    have hu : p.parse_u64 = (.error ⟨p.pos, .ExpectedValue⟩, p) := by
      rw [parse_u64_eq, hz]
      rw [if_neg (by norm_num)]
      rfl
    exact ⟨hu, by rw [parse_u32_err_eq _ _ _ hu]⟩
  · intro inp n ds B h hne hds hB
    have hu : (⟨inp, n⟩ : Parser).parse_u64 =
        (.ok (accumVal 0 ds), ⟨inp, n + ds.length⟩) :=
      parse_u64_mk inp n ds B h hne hds hB
    refine ⟨hu, ?_, ?_⟩
    · intro hbig
      rw [parse_u32_ok_eq _ _ _ hu, if_neg (by omega)]
      rfl
    · intro hbig
      obtain ⟨d, ds', hds'⟩ : ∃ d ds', ds = d :: ds' := by
        cases ds with
        | nil => exact absurd rfl hne
        | cons d ds' => exact ⟨d, ds', rfl⟩
      have hd : isDigit d = true := hds d (by rw [hds']; simp)
      have hc : (⟨inp, n⟩ : Parser).current = some d := by
        rw [current_mk, h, hds']
        rfl
      have h45 : ¬(d = 45 ∨ d = 43) := by
        simp only [isDigit, decide_eq_true_eq] at hd
        omega
      rw [parse_i32_ok_eq (⟨inp, n⟩ : Parser) (⟨inp, n⟩ : Parser) _ d
        (accumVal 0 ds) hc (if_neg h45).symm hu, if_neg (by omega)]
      rfl

/-- Witness for C4: zero digits at a non-digit byte, and the overflowing runs
    "4294967296" for parse_u32 and "2147483648" for parse_i32. -/
theorem claim_C4_decimal_errors_witness :
    ((⟨[88], 0⟩ : Parser).parse_u64 = (.error ⟨0, .ExpectedValue⟩, ⟨[88], 0⟩) ∧
      (⟨[88], 0⟩ : Parser).parse_u32 = (.error ⟨0, .ExpectedValue⟩, ⟨[88], 0⟩)) ∧
      (⟨[52, 50, 57, 52, 57, 54, 55, 50, 57, 54], 0⟩ : Parser).parse_u32 =
        (.error ⟨10, .ValueTooBig⟩, ⟨[52, 50, 57, 52, 57, 54, 55, 50, 57, 54], 10⟩) ∧
      (⟨[50, 49, 52, 55, 52, 56, 51, 54, 52, 56], 0⟩ : Parser).parse_i32 =
        (.error ⟨10, .ValueTooBig⟩, ⟨[50, 49, 52, 55, 52, 56, 51, 54, 52, 56], 10⟩) := by
  obtain ⟨hzero, hover⟩ := claim_C4_decimal_errors
  refine ⟨hzero ⟨[88], 0⟩ (by decide), ?_, ?_⟩
  · exact (hover [52, 50, 57, 52, 57, 54, 55, 50, 57, 54] 0
      [52, 50, 57, 52, 57, 54, 55, 50, 57, 54] [] (by decide) (by decide)
      (by decide) (by decide)).2.1 (by decide)
  · exact (hover [50, 49, 52, 55, 52, 56, 51, 54, 52, 56] 0
      [50, 49, 52, 55, 52, 56, 51, 54, 52, 56] [] (by decide) (by decide)
      (by decide) (by decide)).2.2 (by decide)

/-- Byte list of the record "L\x0910\x095\x09hello\x0a": the kind digit 5 is
    outside the valid log kinds 0-2; the digit sits at offset 5. -/
def lRec5 : List Nat := [76, 9, 49, 48, 9, 53, 9, 104, 101, 108, 108, 111, 10]

/-- C8 counterexample: for the log record with invalid kind digit 5 at offset
    5, the InvalidLogKind error is stamped at offset 6 — the cursor after the
    digit was consumed by single_digit — not at the offset of the digit byte
    itself as the claim states. -/
theorem claim_C8_counterexample :
    Parser.next (Parser.new lRec5) =
        some ((0, .error ⟨6, .InvalidLogKind⟩), ⟨lRec5, 6⟩) ∧
      lRec5.get? 5 = some 53 ∧ (6 : Nat) ≠ 5 := by
  refine ⟨by decide, by decide, by decide⟩

/-- C8 amended: grammar-rule errors are stamped with the cursor offset at the
    point of failure; in particular an invalid kind-code digit (log, retire or
    dependency kind) is reported at the offset immediately after that digit
    byte, because the digit is consumed before the kind check runs.  Here the
    digit sits at offset 5 (log) or 6 (retire, dependency) and the error is
    stamped one byte later. -/
theorem claim_C8_kind_error_offsets (d : Nat) :
    (51 ≤ d → d ≤ 57 →
      Parser.next (Parser.new (76 :: 9 :: 49 :: 48 :: 9 :: d :: 9 :: 104 :: 105 :: [10])) =
        some ((0, .error ⟨6, .InvalidLogKind⟩),
          ⟨76 :: 9 :: 49 :: 48 :: 9 :: d :: 9 :: 104 :: 105 :: [10], 6⟩)) ∧
    (50 ≤ d → d ≤ 57 →
      Parser.next (Parser.new (82 :: 9 :: 49 :: 9 :: 57 :: 9 :: d :: [10])) =
        some ((0, .error ⟨7, .InvalidRetireKind⟩),
          ⟨82 :: 9 :: 49 :: 9 :: 57 :: 9 :: d :: [10], 7⟩)) ∧
    (49 ≤ d → d ≤ 57 →
      Parser.next (Parser.new (87 :: 9 :: 49 :: 9 :: 57 :: 9 :: d :: [10])) =
        some ((0, .error ⟨7, .InvalidDepKind⟩),
          ⟨87 :: 9 :: 49 :: 9 :: 57 :: 9 :: d :: [10], 7⟩)) := by
  refine ⟨?_, ?_, ?_⟩
  · intro hd1 hd2
    set inp := 76 :: 9 :: 49 :: 48 :: 9 :: d :: 9 :: 104 :: 105 :: [10] with hinp
    rw [show Parser.new inp = (⟨inp, 0⟩ : Parser) from rfl]
    have hc : (⟨inp, 0⟩ : Parser).current = some 76 := by
      rw [current_mk, hinp]
      rfl
    have e0 : (⟨inp, 0⟩ : Parser).bump = (⟨inp, 1⟩ : Parser) := rfl
    have e1 : (⟨inp, 1⟩ : Parser).tab = (.ok (), ⟨inp, 2⟩) :=
      tab_mk inp 1 _ (by rw [hinp]; rfl)
    have e2 : (⟨inp, 2⟩ : Parser).parse_u32 = (.ok 10, ⟨inp, 4⟩) :=
      parse_u32_mk inp 2 [49, 48] (9 :: d :: 9 :: 104 :: 105 :: [10])
        (by rw [hinp]; rfl) (by decide) (by decide) (by rfl) (by decide)
    have e3 : (⟨inp, 4⟩ : Parser).tab = (.ok (), ⟨inp, 5⟩) :=
      tab_mk inp 4 _ (by rw [hinp]; rfl)
    have e4 : (⟨inp, 5⟩ : Parser).single_digit = (.ok d, ⟨inp, 6⟩) :=
      single_digit_mk inp 5 d (9 :: 104 :: 105 :: [10]) (by rw [hinp]; rfl)
        (by simp only [isDigit, decide_eq_true_eq]; omega)
    have htf : LogKind.tryFrom d = .error .InvalidLogKind := by
      unfold LogKind.tryFrom
      rw [if_neg (by omega), if_neg (by omega), if_neg (by omega)]
    have hL : (⟨inp, 0⟩ : Parser).parse_l =
        (.error ⟨6, .InvalidLogKind⟩, ⟨inp, 6⟩) := by
      unfold Parser.parse_l
      simp only [e0, e1, e2, e3, e4, htf]
      rfl
    rw [next_some_eq _ 76 hc, if_neg (by norm_num), if_neg (by norm_num),
      if_neg (by norm_num), if_pos rfl, hL]
  · intro hd1 hd2
    set inp := 82 :: 9 :: 49 :: 9 :: 57 :: 9 :: d :: [10] with hinp
    rw [show Parser.new inp = (⟨inp, 0⟩ : Parser) from rfl]
    have hc : (⟨inp, 0⟩ : Parser).current = some 82 := by
      rw [current_mk, hinp]
      rfl
    have e0 : (⟨inp, 0⟩ : Parser).bump = (⟨inp, 1⟩ : Parser) := rfl
    have e1 : (⟨inp, 1⟩ : Parser).tab = (.ok (), ⟨inp, 2⟩) :=
      tab_mk inp 1 _ (by rw [hinp]; rfl)
    have e2 : (⟨inp, 2⟩ : Parser).parse_u32 = (.ok 1, ⟨inp, 3⟩) :=
      parse_u32_mk inp 2 [49] (9 :: 57 :: 9 :: d :: [10])
        (by rw [hinp]; rfl) (by decide) (by decide) (by rfl) (by decide)
    have e3 : (⟨inp, 3⟩ : Parser).tab = (.ok (), ⟨inp, 4⟩) :=
      tab_mk inp 3 _ (by rw [hinp]; rfl)
    have e4 : (⟨inp, 4⟩ : Parser).parse_u32 = (.ok 9, ⟨inp, 5⟩) :=
      parse_u32_mk inp 4 [57] (9 :: d :: [10])
        (by rw [hinp]; rfl) (by decide) (by decide) (by rfl) (by decide)
    have e5 : (⟨inp, 5⟩ : Parser).tab = (.ok (), ⟨inp, 6⟩) :=
      tab_mk inp 5 _ (by rw [hinp]; rfl)
    have e6 : (⟨inp, 6⟩ : Parser).single_digit = (.ok d, ⟨inp, 7⟩) :=
      single_digit_mk inp 6 d [10] (by rw [hinp]; rfl)
        (by simp only [isDigit, decide_eq_true_eq]; omega)
    have htf : RetireKind.tryFrom d = .error .InvalidRetireKind := by
      unfold RetireKind.tryFrom
      rw [if_neg (by omega), if_neg (by omega)]
    have hR : (⟨inp, 0⟩ : Parser).parse_r =
        (.error ⟨7, .InvalidRetireKind⟩, ⟨inp, 7⟩) := by
      unfold Parser.parse_r
      simp only [e0, e1, e2, e3, e4, e5, e6, htf]
      rfl
    rw [next_some_eq _ 82 hc, if_neg (by norm_num), if_neg (by norm_num),
      if_neg (by norm_num), if_neg (by norm_num), if_neg (by norm_num),
      if_neg (by norm_num), if_pos rfl, hR]
  · intro hd1 hd2
    set inp := 87 :: 9 :: 49 :: 9 :: 57 :: 9 :: d :: [10] with hinp
    rw [show Parser.new inp = (⟨inp, 0⟩ : Parser) from rfl]
    have hc : (⟨inp, 0⟩ : Parser).current = some 87 := by
      rw [current_mk, hinp]
      rfl
    have e0 : (⟨inp, 0⟩ : Parser).bump = (⟨inp, 1⟩ : Parser) := rfl
    have e1 : (⟨inp, 1⟩ : Parser).tab = (.ok (), ⟨inp, 2⟩) :=
      tab_mk inp 1 _ (by rw [hinp]; rfl)
    have e2 : (⟨inp, 2⟩ : Parser).parse_u32 = (.ok 1, ⟨inp, 3⟩) :=
      parse_u32_mk inp 2 [49] (9 :: 57 :: 9 :: d :: [10])
        (by rw [hinp]; rfl) (by decide) (by decide) (by rfl) (by decide)
    have e3 : (⟨inp, 3⟩ : Parser).tab = (.ok (), ⟨inp, 4⟩) :=
      tab_mk inp 3 _ (by rw [hinp]; rfl)
    have e4 : (⟨inp, 4⟩ : Parser).parse_u32 = (.ok 9, ⟨inp, 5⟩) :=
      parse_u32_mk inp 4 [57] (9 :: d :: [10])
        (by rw [hinp]; rfl) (by decide) (by decide) (by rfl) (by decide)
    have e5 : (⟨inp, 5⟩ : Parser).tab = (.ok (), ⟨inp, 6⟩) :=
      tab_mk inp 5 _ (by rw [hinp]; rfl)
    have e6 : (⟨inp, 6⟩ : Parser).single_digit = (.ok d, ⟨inp, 7⟩) :=
      single_digit_mk inp 6 d [10] (by rw [hinp]; rfl)
        (by simp only [isDigit, decide_eq_true_eq]; omega)
    have htf : DepKind.tryFrom d = .error .InvalidDepKind := by
      unfold DepKind.tryFrom
      rw [if_neg (by omega)]
    have hW : (⟨inp, 0⟩ : Parser).parse_w =
        (.error ⟨7, .InvalidDepKind⟩, ⟨inp, 7⟩) := by
      unfold Parser.parse_w
      simp only [e0, e1, e2, e3, e4, e5, e6, htf]
      rfl
    rw [next_some_eq _ 87 hc, if_neg (by norm_num), if_neg (by norm_num),
      if_neg (by norm_num), if_neg (by norm_num), if_neg (by norm_num),
      if_neg (by norm_num), if_neg (by norm_num), if_pos rfl, hW]

/-- Witness for C8 at the invalid kind digit 5 (byte 53). -/
theorem claim_C8_kind_error_offsets_witness :
    Parser.next (Parser.new (76 :: 9 :: 49 :: 48 :: 9 :: 53 :: 9 :: 104 :: 105 :: [10])) =
        some ((0, .error ⟨6, .InvalidLogKind⟩),
          ⟨76 :: 9 :: 49 :: 48 :: 9 :: 53 :: 9 :: 104 :: 105 :: [10], 6⟩) ∧
      Parser.next (Parser.new (82 :: 9 :: 49 :: 9 :: 57 :: 9 :: 53 :: [10])) =
        some ((0, .error ⟨7, .InvalidRetireKind⟩),
          ⟨82 :: 9 :: 49 :: 9 :: 57 :: 9 :: 53 :: [10], 7⟩) ∧
      Parser.next (Parser.new (87 :: 9 :: 49 :: 9 :: 57 :: 9 :: 53 :: [10])) =
        some ((0, .error ⟨7, .InvalidDepKind⟩),
          ⟨87 :: 9 :: 49 :: 9 :: 57 :: 9 :: 53 :: [10], 7⟩) := by
  obtain ⟨hL, hR, hW⟩ := claim_C8_kind_error_offsets 53
  exact ⟨hL (by decide) (by decide), hR (by decide) (by decide),
    hW (by decide) (by decide)⟩

/-- C3: the pipeline-stage record "S\x091\x092\x09" followed by 65536 bytes
    of text and a line feed parses successfully, but the StrRef packs the span
    length into 16 bits, so len() reads back 0 instead of 65536: the span is
    misidentified and the length-at-least-one invariant is broken.  The unused
    TextTooLong error kind shows the intended guard that the code never
    applies. -/
theorem claim_C3_len_truncation :
    Parser.next ⟨83 :: 9 :: ([49] ++ (9 :: ([50] ++
        (9 :: (List.replicate 65536 97 ++ [10]))))), 0⟩ =
      some ((0, .ok (.Pipeline true 1 2 (StrRef.new 6 65536))),
        ⟨83 :: 9 :: ([49] ++ (9 :: ([50] ++
          (9 :: (List.replicate 65536 97 ++ [10]))))), 65543⟩) ∧
      (StrRef.new 6 65536).len = 0 ∧ (StrRef.new 6 65536).offset = 6 ∧
      (List.replicate 65536 97).length = 65536 := by
  refine ⟨?_, by decide, by decide, by rw [List.length_replicate]⟩
  have h := pipeline_run 83 true (Or.inl ⟨rfl, rfl⟩) [49] [50]
    (List.replicate 65536 97) (by decide) (by decide) (by decide) (by decide)
    (by decide) (by decide)
    (by
      intro hnil
      have hlen := congrArg List.length hnil
      rw [List.length_replicate] at hlen
      exact absurd hlen (by norm_num))
    (fun b hb => by rw [List.eq_of_mem_replicate hb]; exact ⟨by norm_num, by norm_num⟩)
  rw [List.length_replicate] at h
  norm_num at h
  exact h

end Claims

end Kanata
